import Mathlib

/-!
Auction-in-Go: the auction entity, its store and the closing worker.

A shallow embedding of

* `internal/entity/auction_entity/auction_entity.go`
  (`calculateEndTime`, `CreateAuction`, `Validate`),
* `internal/infra/database/auction/create_auction.go`
  (`AuctionEntityMongo`, `AuctionRepository.CreateAuction`),
* `internal/infra/database/auction/auction_worker.go`
  (`findExpiredAuctions`, `closeAuction`, `StartAuctionClosingWorker`).

Conventions of the embedding.

* A Go `string` is a Lean `String`; Go's `len` is the UTF-8 byte length
  `String.utf8ByteSize`, the number of characters is `String.length`.
* Go `int` / `int64` values that the code only compares or copies are `Int`.
* A `time.Time` is the number of nanoseconds since the Unix epoch, an `Int`;
  a `time.Duration` is a number of nanoseconds, an `Int`.
* A pair `(*T, *InternalError)` returned by Go is a pair of `Option`s,
  `none` standing for `nil`.
* Everything the code reads from outside (the environment variables, the clock,
  the fresh UUID, the outcome of a store call) is an explicit argument.
-/

set_option autoImplicit false

/-! ## The Go standard library: durations -/

namespace time

/-- One nanosecond, the unit of `time.Duration`. -/
def Nanosecond : Int := 1
/-- Duration constant `time.Microsecond`. -/
def Microsecond : Int := 1000 * Nanosecond
/-- Duration constant `time.Millisecond`. -/
def Millisecond : Int := 1000 * Microsecond
/-- Duration constant `time.Second`. -/
def Second : Int := 1000 * Millisecond
/-- Duration constant `time.Minute`. -/
def Minute : Int := 60 * Second
/-- Duration constant `time.Hour`. -/
def Hour : Int := 60 * Minute

/-- The test `'0' <= c && c <= '9'` on one byte of the input. -/
def isDigit (c : Char) : Bool := decide (48 ≤ c.toNat) && decide (c.toNat ≤ 57)

/-- The table `unitMap` of package `time`: the multiplier, in nanoseconds, of
each unit suffix. The two spellings of the micro sign are U+00B5 and U+03BC. -/
def unitMap (u : List Char) : Option Nat :=
  if u = ['n', 's'] then some 1
  else if u = ['u', 's'] then some 1000
  else if u = [Char.ofNat 0xB5, 's'] then some 1000
  else if u = [Char.ofNat 0x3BC, 's'] then some 1000
  else if u = ['m', 's'] then some 1000000
  else if u = ['s'] then some 1000000000
  else if u = ['m'] then some 60000000000
  else if u = ['h'] then some 3600000000000
  else none

/-- Function `leadingInt` of package `time`: consumes the leading `[0-9]*`,
accumulating into `x`; `none` is `errLeadingInt` (the value passed `1<<63`). -/
def leadingInt : Nat → List Char → Option (Nat × List Char)
  | x, [] => some (x, [])
  | x, c :: cs =>
    if !isDigit c then some (x, c :: cs)
    else if x > 2 ^ 63 / 10 then none
    else
      let y := x * 10 + c.toNat - 48
      if y > 2 ^ 63 then none else leadingInt y cs

/-- Function `leadingFraction` of package `time`: consumes the leading `[0-9]*`
after the decimal point. It never fails: digits past the precision of a
`uint64` are skipped. The result is the digits read as an integer, how many of
them were kept (so that `scale = 10 ^ kept`), and the rest of the input. -/
def leadingFraction : Nat → Nat → Bool → List Char → Nat × Nat × List Char
  | x, kept, _, [] => (x, kept, [])
  | x, kept, overflow, c :: cs =>
    if !isDigit c then (x, kept, c :: cs)
    else if overflow then leadingFraction x kept true cs
    else if x > (2 ^ 63 - 1) / 10 then leadingFraction x kept true cs
    else
      let y := x * 10 + c.toNat - 48
      if y > 2 ^ 63 then leadingFraction x kept true cs
      else leadingFraction y (kept + 1) false cs

/-- The test that ends a unit name: a period or a digit. -/
def endsUnit (c : Char) : Bool := c == '.' || isDigit c

/-- The body of the loop `for s != ""` of `time.ParseDuration`: reads one
`number unit` group off a non-empty input and returns its value `v` in
nanoseconds and the rest of the input; `none` is a non-nil `error`.

`frac f unit kept` stands for the one floating-point expression of the
function, `uint64(float64(f) * (float64(unit) / scale))` with
`scale = 10 ^ kept`; it is only consulted when the group has a non-zero
fractional part. -/
def parseGroup (frac : Nat → Nat → Nat → Nat) : List Char → Option (Nat × List Char)
  | [] => none
  | c :: cs =>
    if !(c == '.' || isDigit c) then none
    else
      match leadingInt 0 (c :: cs) with
      | none => none
      | some (v, s1) =>
        let pre := (c :: cs).length != s1.length
        let fr : Nat × Nat × Bool × List Char :=
          match s1 with
          | '.' :: t =>
            let r := leadingFraction 0 0 false t
            (r.1, r.2.1, t.length != r.2.2.length, r.2.2)
          | _ => (0, 0, false, s1)
        let f := fr.1
        let kept := fr.2.1
        let post := fr.2.2.1
        let s2 := fr.2.2.2
        if !pre && !post then none
        else
          let u := s2.takeWhile (fun b => !endsUnit b)
          let s3 := s2.dropWhile (fun b => !endsUnit b)
          if u = [] then none
          else
            match unitMap u with
            | none => none
            | some unit =>
              if v > 2 ^ 63 / unit then none
              else
                let v1 := v * unit
                if f > 0 then
                  let v2 := v1 + frac f unit kept
                  if v2 > 2 ^ 63 then none else some (v2, s3)
                else some (v1, s3)

/-- The loop `for s != ""` of `time.ParseDuration`, accumulating the `uint64`
total `d`. Each round consumes at least one byte, so `fuel` greater than the
length of the input is never used up. -/
def parseGroups (frac : Nat → Nat → Nat → Nat) : Nat → Nat → List Char → Option Nat
  | 0, _, _ => none
  | _ + 1, d, [] => some d
  | fuel + 1, d, c :: cs =>
    match parseGroup frac (c :: cs) with
    | none => none
    | some (v, rest) =>
      let d1 := (d + v) % 2 ^ 64
      if d1 > 2 ^ 63 then none else parseGroups frac fuel d1 rest

/-- Function `time.ParseDuration`: `[-+]?([0-9]*(\.[0-9]*)?[a-z]+)+`, or the
single string `0` after the optional sign. `none` is a non-nil `error`. -/
def ParseDuration (frac : Nat → Nat → Nat → Nat) (str : String) : Option Int :=
  let signed : Bool × List Char :=
    match str.data with
    | '-' :: t => (true, t)
    | '+' :: t => (false, t)
    | s => (false, s)
  let neg := signed.1
  let s := signed.2
  if s = ['0'] then some 0
  else if s = [] then none
  else
    match parseGroups frac (s.length + 1) 0 s with
    | none => none
    | some d =>
      if neg then some (-(d : Int))
      else if d > 2 ^ 63 - 1 then none
      else some (d : Int)

/-- A value for the parameter `frac` where a concrete run is evaluated: the
quotient `f * unit / 10 ^ kept` rounded down. It is not the floating-point
expression of `ParseDuration`, from which it can differ by a nanosecond; the
runs evaluated with it use settings without a fractional part, on which `frac`
is never consulted. -/
def exactFrac (f unit kept : Nat) : Nat := f * unit / 10 ^ kept

/-- Method `Time.Unix`: whole seconds since the epoch, rounded down. -/
def unixSeconds (t : Int) : Int := t / 1000000000

/-- Function `time.Unix(sec, 0)`. -/
def Unix (sec : Int) : Int := sec * 1000000000

end time

/-! ## Package `internal_error` -/

namespace internal_error

/-- Modelled from the spec: package `internal_error` is not among the sources.
The three kinds of error the code builds, named after the constructors it
calls: `NewBadRequestError` (the spec's `ValidationError`), `NewNotFoundError`
(`NotFoundError`) and `NewInternalServerError` (`StorageError`). -/
inductive Kind where
  | BadRequest
  | NotFound
  | InternalServerError
  deriving DecidableEq

/-- Modelled from the spec: the error value of package `internal_error`, not
among the sources: a kind and the human-readable reason. -/
structure InternalError where
  Message : String
  Err : Kind
  deriving DecidableEq

/-- Modelled from the spec: the constructor of a validation error, not among
the sources. -/
def NewBadRequestError (message : String) : InternalError :=
  { Message := message, Err := Kind.BadRequest }

/-- Modelled from the spec: the constructor of a not-found error, not among the
sources. -/
def NewNotFoundError (message : String) : InternalError :=
  { Message := message, Err := Kind.NotFound }

/-- Modelled from the spec: the constructor of a storage error, not among the
sources. -/
def NewInternalServerError (message : String) : InternalError :=
  { Message := message, Err := Kind.InternalServerError }

end internal_error

/-! ## Package `auction_entity` -/

namespace auction_entity

open internal_error

/-- Type `ProductCondition`, a Go `int`. -/
abbrev ProductCondition := Int
/-- Type `AuctionStatus`, a Go `int`. -/
abbrev AuctionStatus := Int

/-- Status constant `Active`, `iota` = 0. -/
def Active : AuctionStatus := 0
/-- Status constant `Completed` = 1. -/
def Completed : AuctionStatus := 1

/-- Condition constant `New`, `iota + 1` = 1. -/
def New : ProductCondition := 1
/-- Condition constant `Used` = 2. -/
def Used : ProductCondition := 2
/-- Condition constant `Refurbished` = 3. -/
def Refurbished : ProductCondition := 3

/-- The struct `Auction`. -/
structure Auction where
  Id : String
  ProductName : String
  Category : String
  Description : String
  Condition : ProductCondition
  Status : AuctionStatus
  Timestamp : Int
  EndTime : Int
  deriving DecidableEq

/-- Go's `len` of a string: its length in bytes. -/
def len (s : String) : Nat := s.utf8ByteSize

/-- Function `calculateEndTime`. `getenv` is `os.Getenv` (the empty string for
an unset variable), `now` the reading of `time.Now()` taken here. -/
def calculateEndTime (frac : Nat → Nat → Nat → Nat) (getenv : String → String)
    (now : Int) : Int :=
  let durationStr := getenv "AUCTION_DURATION"
  let durationStr := if durationStr = "" then "5m" else durationStr
  let duration : Int :=
    match time.ParseDuration frac durationStr with
    | some d => d
    | none => 5 * time.Minute
  now + duration

/-- Method `(*Auction).Validate`. -/
def Auction.Validate (au : Auction) : Option InternalError :=
  if len au.ProductName ≤ 1 then
    some (NewBadRequestError "product name must be longer than 1 character")
  else if len au.Category ≤ 2 then
    some (NewBadRequestError "category must be longer than 2 characters")
  else if len au.Description ≤ 10 then
    some (NewBadRequestError "description must be longer than 10 characters")
  else if au.Condition ≠ New ∧ au.Condition ≠ Refurbished ∧ au.Condition ≠ Used then
    some (NewBadRequestError "invalid product condition")
  else none

/-- Function `CreateAuction`. `uuid` is the string of `uuid.New()`, `now1` the
reading of `time.Now()` stored as `Timestamp`, `now2` the later reading taken
inside `calculateEndTime`. -/
def CreateAuction (frac : Nat → Nat → Nat → Nat) (getenv : String → String)
    (uuid : String) (now1 now2 : Int)
    (productName category description : String)
    (condition : ProductCondition) : Option Auction × Option InternalError :=
  let auction : Auction :=
    { Id := uuid
      ProductName := productName
      Category := category
      Description := description
      Condition := condition
      Status := Active
      Timestamp := now1
      EndTime := calculateEndTime frac getenv now2 }
  match auction.Validate with
  | some err => (none, some err)
  | none => (some auction, none)

/-- The value of the local variable `duration` of `calculateEndTime`: the
duration resolved from `AUCTION_DURATION`. -/
def resolvedDuration (frac : Nat → Nat → Nat → Nat) (getenv : String → String) : Int :=
  let durationStr := getenv "AUCTION_DURATION"
  let durationStr := if durationStr = "" then "5m" else durationStr
  match time.ParseDuration frac durationStr with
  | some d => d
  | none => 5 * time.Minute

end auction_entity

/-! ## Package `auction`: the MongoDB collection -/

namespace auction

open internal_error auction_entity

/-- The struct `AuctionEntityMongo`; `Id` is the document's `_id`, the two
times are whole Unix seconds (`int64`). -/
structure AuctionEntityMongo where
  Id : String
  ProductName : String
  Category : String
  Description : String
  Condition : ProductCondition
  Status : AuctionStatus
  Timestamp : Int
  EndTime : Int
  deriving DecidableEq

/-- The documents of the collection `auctions`, in the order a cursor yields
them. -/
abbrev Collection := List AuctionEntityMongo

/-- The invariant MongoDB keeps on every collection: `_id` is unique. -/
def WellFormed (c : Collection) : Prop := (c.map (fun d => d.Id)).Nodup

/-- Uniqueness of `_id` can be checked on a given collection. -/
instance decidableWellFormed (c : Collection) : Decidable (WellFormed c) :=
  inferInstanceAs (Decidable (List.Nodup (List.map (fun d : AuctionEntityMongo => d.Id) c)))

/-- The driver call `Collection.InsertOne`; `none` is a non-nil `error`: the
call failed, or the `_id` is already present (duplicate key). -/
def InsertOne (fails : Bool) (doc : AuctionEntityMongo) (c : Collection) :
    Option Collection :=
  if fails then none
  else if doc.Id ∈ c.map (fun d => d.Id) then none
  else some (c ++ [doc])

/-- The driver call `Collection.Find` for the filter
`{status: status, end_time: {$lte: now}}`, with the documents its cursor
yields; `none` is a non-nil `error`. -/
def Find (fails : Bool) (status : AuctionStatus) (now : Int) (c : Collection) :
    Option (List AuctionEntityMongo) :=
  if fails then none
  else some (c.filter (fun d => decide (d.Status = status ∧ d.EndTime ≤ now)))

/-- The struct `mongo.UpdateResult`, as far as the code reads it. -/
structure UpdateResult where
  MatchedCount : Nat
  ModifiedCount : Nat
  deriving DecidableEq

/-- The document `d` with its status set, as `$set: {status: status}` does. -/
def withStatus (status : AuctionStatus) (d : AuctionEntityMongo) : AuctionEntityMongo :=
  { d with Status := status }

/-- What `UpdateOne` does to the documents for the filter `{_id: id}` and the
update `{$set: {status: status}}`: the first document with that `_id` is
matched, and it counts as modified only when its status really changes. -/
def setStatus (id : String) (status : AuctionStatus) :
    Collection → UpdateResult × Collection
  | [] => ({ MatchedCount := 0, ModifiedCount := 0 }, [])
  | d :: ds =>
    if d.Id = id then
      if d.Status = status then ({ MatchedCount := 1, ModifiedCount := 0 }, d :: ds)
      else ({ MatchedCount := 1, ModifiedCount := 1 }, withStatus status d :: ds)
    else
      let r := setStatus id status ds
      (r.1, d :: r.2)

/-- The driver call `Collection.UpdateOne`; `none` is a non-nil `error`, and
a failed call leaves the collection as it was. -/
def UpdateOne (fails : Bool) (id : String) (status : AuctionStatus) (c : Collection) :
    Option (UpdateResult × Collection) :=
  if fails then none else some (setStatus id status c)

/-! ## Package `auction`: the repository -/

namespace AuctionRepository

/-- The document `CreateAuction` builds from an entity. -/
def toMongo (auctionEntity : Auction) : AuctionEntityMongo :=
  { Id := auctionEntity.Id
    ProductName := auctionEntity.ProductName
    Category := auctionEntity.Category
    Description := auctionEntity.Description
    Condition := auctionEntity.Condition
    Status := auctionEntity.Status
    Timestamp := time.unixSeconds auctionEntity.Timestamp
    EndTime := time.unixSeconds auctionEntity.EndTime }

/-- Method `AuctionRepository.CreateAuction`: the error returned and the
collection afterwards. -/
def CreateAuction (insertFails : Bool) (auctionEntity : Auction) (c : Collection) :
    Option InternalError × Collection :=
  let auctionEntityMongo := toMongo auctionEntity
  match InsertOne insertFails auctionEntityMongo c with
  | none => (some (NewInternalServerError "Error trying to insert auction"), c)
  | some c' => (none, c')

/-- The entity `findExpiredAuctions` builds from a document. -/
def toEntity (auction : AuctionEntityMongo) : Auction :=
  { Id := auction.Id
    ProductName := auction.ProductName
    Category := auction.Category
    Description := auction.Description
    Condition := auction.Condition
    Status := auction.Status
    Timestamp := time.Unix auction.Timestamp
    EndTime := time.Unix auction.EndTime }

/-- Method `AuctionRepository.findExpiredAuctions`; `timeNow` is the reading of
`time.Now()`, `decodeFails` the outcome of `cursor.All`. A nil slice is the
empty list. -/
def findExpiredAuctions (findFails decodeFails : Bool) (timeNow : Int) (c : Collection) :
    List Auction × Option InternalError :=
  let now := time.unixSeconds timeNow
  match Find findFails Active now c with
  | none => ([], some (NewInternalServerError "Error finding expired auctions"))
  | some auctionsMongo =>
    if decodeFails then
      ([], some (NewInternalServerError "Error decoding expired auctions"))
    else (auctionsMongo.map toEntity, none)

/-- Method `AuctionRepository.closeAuction`: the error returned and the
collection afterwards. -/
def closeAuction (updateFails : Bool) (auctionId : String) (c : Collection) :
    Option InternalError × Collection :=
  match UpdateOne updateFails auctionId Completed c with
  | none => (some (NewInternalServerError "Error trying to close auction"), c)
  | some (result, c') =>
    if result.MatchedCount = 0 then
      (some (NewNotFoundError "Auction not found for closing"), c')
    else if result.ModifiedCount = 0 then
      (some (NewInternalServerError "Auction was not modified during closing"), c')
    else (none, c')

end AuctionRepository

/-! ## Package `auction`: the closing worker -/

/-- What the worker does not control. Every interaction of the worker with the
outside (the check of `ctx.Done()`, a store call, a sleep) is one step, and
steps are numbered from 0. -/
structure Env where
  /-- The step from which on `ctx.Done()` is closed, if ever. -/
  cancelAt : Option Nat
  /-- The reading of `time.Now()` at a step. -/
  clock : Nat → Int
  /-- Whether the `Find` of a step returns an error. -/
  findFails : Nat → Bool
  /-- Whether the `cursor.All` of a step returns an error. -/
  decodeFails : Nat → Bool
  /-- Whether the `UpdateOne` of a step returns an error. -/
  updateFails : Nat → Bool
  /-- What the other clients of the database did to the collection since the
  step before. -/
  others : Nat → Collection → Collection

/-- Whether `ctx.Done()` is closed at a step; once closed it stays closed. -/
def Env.cancelled (env : Env) (k : Nat) : Bool :=
  match env.cancelAt with
  | some c => decide (c ≤ k)
  | none => false

/-- What the worker begins at a step. -/
inductive Call where
  /-- The branch `case <-ctx.Done()`: the worker logs and returns. -/
  | done
  /-- A call of `findExpiredAuctions`. -/
  | scan
  /-- A call of `closeAuction` for one auction. -/
  | close (auctionId : String)
  /-- A call of `time.Sleep`. -/
  | sleep (d : Int)
  deriving DecidableEq

/-- One entry of the worker's history: the step at which a call began, the
call, whether the cancellation signal was already set at that moment, and the
error the call returned. -/
structure Event where
  step : Nat
  call : Call
  cancelled : Bool
  err : Option InternalError
  deriving DecidableEq

/-- The worker's view of the world between two steps. -/
structure WorkerState where
  coll : Collection
  step : Nat
  log : List Event

/-- The call `time.Sleep(checkInterval)`. -/
def sleep (env : Env) (checkInterval : Int) (w : WorkerState) : WorkerState :=
  { coll := w.coll
    step := w.step + 1
    log := w.log ++ [{ step := w.step
                       call := Call.sleep checkInterval
                       cancelled := env.cancelled w.step
                       err := none }] }

/-- The loop `for _, auction := range expiredAuctions` of the worker: an error
of `closeAuction` is logged and the loop goes on. -/
def closeExpired (env : Env) : List Auction → WorkerState → WorkerState
  | [], w => w
  | auction :: rest, w =>
    let r := AuctionRepository.closeAuction (env.updateFails w.step) auction.Id
      (env.others w.step w.coll)
    closeExpired env rest
      { coll := r.2
        step := w.step + 1
        log := w.log ++ [{ step := w.step
                           call := Call.close auction.Id
                           cancelled := env.cancelled w.step
                           err := r.1 }] }

/-- One round of the loop `for { select { ... } }` of
`StartAuctionClosingWorker`: the state afterwards, and whether the worker
returned. -/
def workerRound (env : Env) (checkInterval : Int) (w : WorkerState) :
    WorkerState × Bool :=
  if env.cancelled w.step then
    ({ coll := w.coll
       step := w.step + 1
       log := w.log ++ [{ step := w.step, call := Call.done, cancelled := true,
                          err := none }] }, true)
  else
    let k := w.step + 1
    let c := env.others k w.coll
    let r := AuctionRepository.findExpiredAuctions (env.findFails k) (env.decodeFails k)
      (env.clock k) c
    let w1 : WorkerState :=
      { coll := c
        step := k + 1
        log := w.log ++ [{ step := k, call := Call.scan, cancelled := env.cancelled k,
                           err := r.2 }] }
    match r.2 with
    | some _ => (sleep env checkInterval w1, false)
    | none => (sleep env checkInterval (closeExpired env r.1 w1), false)

/-- The loop `for { ... }` of `StartAuctionClosingWorker`, run for at most
`rounds` rounds; the flag tells whether the worker returned. -/
def workerLoop (env : Env) (checkInterval : Int) : Nat → WorkerState → WorkerState × Bool
  | 0, w => (w, false)
  | rounds + 1, w =>
    let r := workerRound env checkInterval w
    if r.2 then r else workerLoop env checkInterval rounds r.1

/-- The check interval `StartAuctionClosingWorker` settles on before its
loop. -/
def checkInterval (frac : Nat → Nat → Nat → Nat) (getenv : String → String) : Int :=
  let checkInterval := 1 * time.Minute
  let testInterval := getenv "WORKER_CHECK_INTERVAL"
  if testInterval ≠ "" then
    match time.ParseDuration frac testInterval with
    | some parsedInterval => parsedInterval
    | none => checkInterval
  else checkInterval

namespace AuctionRepository

/-- Method `AuctionRepository.StartAuctionClosingWorker`, run for at most
`rounds` rounds of its loop. -/
def StartAuctionClosingWorker (frac : Nat → Nat → Nat → Nat) (getenv : String → String)
    (env : Env) (rounds : Nat) (w : WorkerState) : WorkerState × Bool :=
  workerLoop env (checkInterval frac getenv) rounds w

end AuctionRepository

end auction

/-! ## Sample data -/

namespace sample

open auction_entity auction

/-- The process environment in which only `AUCTION_DURATION` is set, to `v`. -/
def envDuration (v : String) : String → String :=
  fun name => if name = "AUCTION_DURATION" then v else ""

/-- The process environment in which no variable is set. -/
def envEmpty : String → String := fun _ => ""

/-- A stored auction with the given id, status and end time (Unix seconds). -/
def doc (id : String) (status : AuctionStatus) (endTime : Int) : AuctionEntityMongo :=
  { Id := id
    ProductName := "Produto Teste"
    Category := "Eletrônicos"
    Description := "Descrição de teste"
    Condition := New
    Status := status
    Timestamp := 1700000000
    EndTime := endTime }

/-- A valid auction entity whose `EndTime` is 0.9 s past a whole second. -/
def lateAuction : Auction :=
  { Id := "id-1"
    ProductName := "Produto Teste"
    Category := "Eletrônicos"
    Description := "Descrição de teste"
    Condition := New
    Status := Active
    Timestamp := 1699999700900000000
    EndTime := 1700000000900000000 }

/-- An environment without cancellation, store failures or other clients, in
which the clock always reads `now`. -/
def quiet (now : Int) : Env :=
  { cancelAt := none
    clock := fun _ => now
    findFails := fun _ => false
    decodeFails := fun _ => false
    updateFails := fun _ => false
    others := fun _ c => c }

/-- Four stored auctions, all Active and long expired. -/
def fourExpired : Collection :=
  [doc "a" Active 1600000000, doc "b" Active 1600000000, doc "c" Active 1600000000,
   doc "d" Active 1600000000]

/-- An environment in which the four `closeAuction` calls of one round (steps 2
to 5) end in the four possible ways: the first succeeds, before the second
another client deletes auction `b` (not found), before the third another client
completes auction `c` (not modified), and the fourth update fails. -/
def rough : Env :=
  { cancelAt := none
    clock := fun _ => 1700000000100000000
    findFails := fun _ => false
    decodeFails := fun _ => false
    updateFails := fun k => decide (k = 5)
    others := fun k c =>
      if k = 3 then c.filter (fun d => decide (d.Id ≠ "b"))
      else if k = 4 then c.map (fun d => if d.Id = "c" then withStatus Completed d else d)
      else c }

/-- An environment in which the signal is set at step 3, and from then on the
store calls, which carry the cancelled context, fail. -/
def cancelMidBatch : Env :=
  { cancelAt := some 3
    clock := fun _ => 1700000000100000000
    findFails := fun k => decide (3 ≤ k)
    decodeFails := fun _ => false
    updateFails := fun k => decide (3 ≤ k)
    others := fun _ c => c }

end sample

/-! ## The duration parser never runs out of fuel -/

namespace time

theorem leadingInt_length (x : Nat) (s : List Char) (v : Nat) (r : List Char)
    (h : leadingInt x s = some (v, r)) : r.length ≤ s.length := by
  induction s generalizing x with
  | nil =>
    simp only [leadingInt, Option.some.injEq, Prod.mk.injEq] at h
    rw [← h.2]
  | cons c cs ih =>
    rw [leadingInt] at h
    split at h
    · simp only [Option.some.injEq, Prod.mk.injEq] at h
      rw [← h.2]
    · split at h
      · cases h
      · dsimp only at h
        split at h
        · cases h
        · have := ih _ h
          simp only [List.length_cons]
          omega

theorem leadingFraction_length (x kept : Nat) (overflow : Bool) (s : List Char) :
    (leadingFraction x kept overflow s).2.2.length ≤ s.length := by
  induction s generalizing x kept overflow with
  | nil => simp [leadingFraction]
  | cons c cs ih =>
    rw [leadingFraction]
    split
    · simp
    · split
      · have := ih x kept true
        simp only [List.length_cons]; omega
      · split
        · have := ih x kept true
          simp only [List.length_cons]; omega
        · dsimp only
          split
          · have := ih x kept true
            simp only [List.length_cons]; omega
          · have := ih (x * 10 + c.toNat - 48) (kept + 1) false
            simp only [List.length_cons]; omega

theorem dropWhile_length_lt (p : Char → Bool) (s : List Char)
    (h : s.takeWhile p ≠ []) : (s.dropWhile p).length < s.length := by
  have h1 : (s.takeWhile p).length + (s.dropWhile p).length = s.length := by
    rw [← List.length_append, List.takeWhile_append_dropWhile]
  have h2 : 0 < (s.takeWhile p).length := List.length_pos.2 h
  omega

/-- A group takes at least one byte off the input. -/
theorem parseGroup_length (frac : Nat → Nat → Nat → Nat) (s : List Char) (v : Nat)
    (rest : List Char) (h : parseGroup frac s = some (v, rest)) :
    rest.length < s.length := by
  cases s with
  | nil => simp [parseGroup] at h
  | cons c cs =>
    rw [parseGroup] at h
    split at h
    · cases h
    · cases hli : leadingInt 0 (c :: cs) with
      | none => simp [hli] at h
      | some vr =>
        obtain ⟨x, s1⟩ := vr
        have hs1 : s1.length ≤ (c :: cs).length := leadingInt_length 0 _ x s1 hli
        simp only [hli] at h
        -- the input after the optional fraction
        have hs2 : ∀ s2 : List Char,
            s2 = (match s1 with
              | '.' :: t =>
                ((leadingFraction 0 0 false t).1, (leadingFraction 0 0 false t).2.1,
                  t.length != (leadingFraction 0 0 false t).2.2.length,
                  (leadingFraction 0 0 false t).2.2)
              | _ => (0, 0, false, s1)).2.2.2 → s2.length ≤ s1.length := by
          intro s2 hs2
          rw [hs2]
          split
          · rename_i t
            have := leadingFraction_length 0 0 false t
            simp only [List.length_cons]
            omega
          · exact le_refl _
        generalize hfr : (match s1 with
              | '.' :: t =>
                ((leadingFraction 0 0 false t).1, (leadingFraction 0 0 false t).2.1,
                  t.length != (leadingFraction 0 0 false t).2.2.length,
                  (leadingFraction 0 0 false t).2.2)
              | _ => (0, 0, false, s1)) = fr at h hs2
        have hlen2 := hs2 fr.2.2.2 rfl
        split at h
        · cases h
        · split at h
          · cases h
          · rename_i hu
            have hdrop := dropWhile_length_lt (fun b => !endsUnit b) fr.2.2.2 hu
            split at h
            · cases h
            · split at h
              · cases h
              · split at h
                · split at h
                  · cases h
                  · simp only [Option.some.injEq, Prod.mk.injEq] at h
                    rw [← h.2]; omega
                · simp only [Option.some.injEq, Prod.mk.injEq] at h
                  rw [← h.2]; omega

/-- Fuel beyond the length of the input makes no difference: the loop of
`ParseDuration` ends by itself. -/
theorem parseGroups_fuel (frac : Nat → Nat → Nat → Nat) (n m d : Nat) (s : List Char)
    (hn : s.length < n) (hm : s.length < m) :
    parseGroups frac n d s = parseGroups frac m d s := by
  induction n generalizing m d s with
  | zero => omega
  | succ n ih =>
    cases m with
    | zero => omega
    | succ m =>
      cases s with
      | nil => simp [parseGroups]
      | cons c cs =>
        rw [parseGroups, parseGroups]
        cases hg : parseGroup frac (c :: cs) with
        | none => rfl
        | some vr =>
          obtain ⟨v, rest⟩ := vr
          have hlen := parseGroup_length frac _ v rest hg
          dsimp only
          split
          · rfl
          · exact ih m _ rest (by omega) (by omega)

end time

/-! ## Facts about strings and the duration parser -/

theorem utf8ByteSize_go_ge_length (cs : List Char) :
    cs.length ≤ String.utf8ByteSize.go cs := by
  induction cs with
  | nil => simp [String.utf8ByteSize.go]
  | cons c cs ih =>
    have hc : 0 < c.utf8Size := Char.utf8Size_pos c
    simp only [String.utf8ByteSize.go, List.length_cons]
    omega

/-- A string has at least as many bytes as characters. -/
theorem length_le_len (s : String) : s.length ≤ auction_entity.len s := by
  cases s with
  | mk cs => exact utf8ByteSize_go_ge_length cs

theorem ParseDuration_5m (frac : Nat → Nat → Nat → Nat) :
    time.ParseDuration frac "5m" = some (5 * time.Minute) := by rfl

theorem ParseDuration_empty (frac : Nat → Nat → Nat → Nat) :
    time.ParseDuration frac "" = none := by rfl

/-- Rounding down to whole seconds never moves a time forward. -/
theorem Unix_unixSeconds_le (t : Int) : time.Unix (time.unixSeconds t) ≤ t := by
  unfold time.Unix time.unixSeconds
  have := Int.ediv_mul_le t (show (1000000000 : Int) ≠ 0 by norm_num)
  linarith

/-- Rounding down to whole seconds loses less than one second. -/
theorem lt_Unix_unixSeconds_add (t : Int) :
    t < time.Unix (time.unixSeconds t) + time.Second := by
  unfold time.Unix time.unixSeconds
  have := Int.lt_ediv_add_one_mul_self t (show (0 : Int) < 1000000000 by norm_num)
  have hs : time.Second = 1000000000 := by decide
  rw [hs]
  linarith

theorem unixSeconds_Unix (s : Int) : time.unixSeconds (time.Unix s) = s := by
  unfold time.Unix time.unixSeconds
  exact Int.mul_ediv_cancel s (by norm_num)

/-! ## Facts about the collection -/

namespace auction

open internal_error auction_entity

theorem wellFormed_cons (d : AuctionEntityMongo) (c : Collection) :
    WellFormed (d :: c) ↔ (∀ x ∈ c, x.Id ≠ d.Id) ∧ WellFormed c := by
  unfold WellFormed
  simp only [List.map_cons, List.nodup_cons, List.mem_map, not_exists, not_and]

/-- In a well-formed collection a document is determined by its `_id`. -/
theorem eq_of_id_eq {c : Collection} (hwf : WellFormed c) {x y : AuctionEntityMongo}
    (hx : x ∈ c) (hy : y ∈ c) (h : x.Id = y.Id) : x = y := by
  induction c with
  | nil => cases hx
  | cons d ds ih =>
    rw [wellFormed_cons] at hwf
    rcases List.mem_cons.1 hx with rfl | hx'
    · rcases List.mem_cons.1 hy with rfl | hy'
      · rfl
      · exact absurd h.symm (hwf.1 y hy')
    · rcases List.mem_cons.1 hy with rfl | hy'
      · exact absurd h (hwf.1 x hx')
      · exact ih hwf.2 hx' hy'

theorem withStatus_self (d : AuctionEntityMongo) : withStatus d.Status d = d := by
  cases d; rfl

theorem map_setter_of_absent (id : String) (status : AuctionStatus) (c : Collection)
    (h : ∀ x ∈ c, x.Id ≠ id) :
    c.map (fun d => if d.Id = id then withStatus status d else d) = c := by
  induction c with
  | nil => rfl
  | cons d ds ih =>
    have hd : d.Id ≠ id := h d (List.mem_cons_self _ _)
    have hds : ∀ x ∈ ds, x.Id ≠ id := fun x hx => h x (List.mem_cons_of_mem _ hx)
    simp [hd, ih hds]

/-- In a well-formed collection `UpdateOne` by `_id` changes every document with
that `_id`, there being at most one. -/
theorem setStatus_snd (id : String) (status : AuctionStatus) (c : Collection)
    (hwf : WellFormed c) :
    (setStatus id status c).2
      = c.map (fun d => if d.Id = id then withStatus status d else d) := by
  induction c with
  | nil => rfl
  | cons d ds ih =>
    rw [wellFormed_cons] at hwf
    by_cases hd : d.Id = id
    · have hds : ∀ x ∈ ds, x.Id ≠ id := fun x hx => hd ▸ hwf.1 x hx
      have hmap := map_setter_of_absent id status ds hds
      by_cases hs : d.Status = status
      · have : withStatus status d = d := hs ▸ withStatus_self d
        simp [setStatus, hd, hs, hmap, this]
      · simp only [setStatus, hd, hs, if_true, if_false, List.map_cons, hmap]
    · simp [setStatus, hd, ih hwf.2]

/-- The counts `UpdateOne` reports when the `_id` is present. -/
theorem setStatus_fst (id : String) (status : AuctionStatus) (c : Collection)
    (hwf : WellFormed c) (d : AuctionEntityMongo) (hd : d ∈ c) (hid : d.Id = id) :
    (setStatus id status c).1
      = { MatchedCount := 1, ModifiedCount := if d.Status = status then 0 else 1 } := by
  induction c with
  | nil => cases hd
  | cons x xs ih =>
    have hwf' := (wellFormed_cons x xs).1 hwf
    by_cases hx : x.Id = id
    · have hxd : x = d :=
        eq_of_id_eq hwf (List.mem_cons_self _ _) hd (hx.trans hid.symm)
      subst hxd
      by_cases hs : x.Status = status <;> simp [setStatus, hx, hs]
    · have hd' : d ∈ xs := by
        rcases List.mem_cons.1 hd with rfl | h
        · exact absurd hid hx
        · exact h
      simp [setStatus, hx, ih hwf'.2 hd']

/-- The counts `UpdateOne` reports when the `_id` is absent. -/
theorem setStatus_absent (id : String) (status : AuctionStatus) (c : Collection)
    (h : ∀ x ∈ c, x.Id ≠ id) :
    setStatus id status c = ({ MatchedCount := 0, ModifiedCount := 0 }, c) := by
  induction c with
  | nil => rfl
  | cons d ds ih =>
    have hd : d.Id ≠ id := h d (List.mem_cons_self _ _)
    have hds : ∀ x ∈ ds, x.Id ≠ id := fun x hx => h x (List.mem_cons_of_mem _ hx)
    simp [setStatus, hd, ih hds]

theorem map_setter_ids (f : AuctionEntityMongo → AuctionEntityMongo)
    (hf : ∀ d, (f d).Id = d.Id) (c : Collection) :
    (c.map f).map (fun d => d.Id) = c.map (fun d => d.Id) := by
  simp [List.map_map, Function.comp, hf]

theorem wellFormed_map (f : AuctionEntityMongo → AuctionEntityMongo)
    (hf : ∀ d, (f d).Id = d.Id) (c : Collection) (hwf : WellFormed c) :
    WellFormed (c.map f) := by
  unfold WellFormed at *
  rw [map_setter_ids f hf c]
  exact hwf

theorem wellFormed_nil : WellFormed ([] : Collection) := by
  simp [WellFormed]

/-- The update keeps `_id` unique. -/
theorem wellFormed_setStatus (id : String) (status : AuctionStatus) (c : Collection)
    (hwf : WellFormed c) : WellFormed (setStatus id status c).2 := by
  rw [setStatus_snd id status c hwf]
  apply wellFormed_map _ _ c hwf
  intro d
  split <;> rfl

/-- The insert keeps `_id` unique: a duplicate key is refused. -/
theorem wellFormed_InsertOne (fails : Bool) (doc : AuctionEntityMongo)
    (c c' : Collection) (hwf : WellFormed c) (h : InsertOne fails doc c = some c') :
    WellFormed c' := by
  unfold InsertOne at h
  split at h
  · cases h
  · split at h
    · cases h
    · rename_i hdup
      simp only [Option.some.injEq] at h
      rw [← h]
      unfold WellFormed at *
      rw [List.map_append, List.nodup_append]
      refine ⟨hwf, by simp, ?_⟩
      intro a ha hb
      simp only [List.map_cons, List.map_nil, List.mem_singleton] at hb
      exact hdup (hb ▸ ha)

namespace AuctionRepository

/-- Whatever `closeAuction` returns, the collection afterwards is the one
`UpdateOne` left, or the old one when the call failed. -/
theorem closeAuction_snd (updateFails : Bool) (auctionId : String) (c : Collection) :
    (closeAuction updateFails auctionId c).2
      = if updateFails then c else (setStatus auctionId Completed c).2 := by
  cases updateFails
  · simp only [closeAuction, UpdateOne, Bool.false_eq_true, if_false]
    split
    · rfl
    · split <;> rfl
  · simp [closeAuction, UpdateOne]

/-- Closing an auction keeps `_id` unique. -/
theorem wellFormed_closeAuction (updateFails : Bool) (auctionId : String)
    (c : Collection) (hwf : WellFormed c) :
    WellFormed (closeAuction updateFails auctionId c).2 := by
  rw [closeAuction_snd]
  split
  · exact hwf
  · exact wellFormed_setStatus auctionId Completed c hwf

/-- Persisting an auction keeps `_id` unique. -/
theorem wellFormed_CreateAuction (insertFails : Bool) (auctionEntity : Auction)
    (c : Collection) (hwf : WellFormed c) :
    WellFormed (CreateAuction insertFails auctionEntity c).2 := by
  cases h : InsertOne insertFails (toMongo auctionEntity) c with
  | none =>
    simp only [CreateAuction, h]
    exact hwf
  | some c' =>
    simp only [CreateAuction, h]
    exact wellFormed_InsertOne insertFails _ c c' hwf h

end AuctionRepository

end auction

/-! ## The auction entity -/

namespace auction_entity

open internal_error

/-- A valid input passes `Validate`, so `CreateAuction` returns the auction it
built. -/
theorem CreateAuction_of_valid (frac : Nat → Nat → Nat → Nat) (getenv : String → String)
    (uuid : String) (now1 now2 : Int) (productName category description : String)
    (condition : ProductCondition)
    (hp : 1 < productName.length) (hc : 2 < category.length)
    (hd : 10 < description.length)
    (hcond : condition = New ∨ condition = Used ∨ condition = Refurbished) :
    CreateAuction frac getenv uuid now1 now2 productName category description condition
      = (some { Id := uuid
                ProductName := productName
                Category := category
                Description := description
                Condition := condition
                Status := Active
                Timestamp := now1
                EndTime := calculateEndTime frac getenv now2 }, none) := by
  have h1 := length_le_len productName
  have h2 := length_le_len category
  have h3 := length_le_len description
  have e1 : ¬ len productName ≤ 1 := by omega
  have e2 : ¬ len category ≤ 2 := by omega
  have e3 : ¬ len description ≤ 10 := by omega
  have e4 : ¬ (condition ≠ New ∧ condition ≠ Refurbished ∧ condition ≠ Used) := by
    rcases hcond with h | h | h <;> simp [h]
  simp [CreateAuction, Auction.Validate, e1, e2, e3, e4]

/-- C1: for every product name longer than 1 character, category longer than 2
characters, description longer than 10 characters and condition among New, Used
and Refurbished, `CreateAuction` returns a nil error and an auction whose status
is Active and whose product name, category, description and condition are the
arguments given. -/
theorem CreateAuction_valid (frac : Nat → Nat → Nat → Nat) (getenv : String → String)
    (uuid : String) (now1 now2 : Int) (productName category description : String)
    (condition : ProductCondition)
    (hp : 1 < productName.length) (hc : 2 < category.length)
    (hd : 10 < description.length)
    (hcond : condition = New ∨ condition = Used ∨ condition = Refurbished) :
    CreateAuction frac getenv uuid now1 now2 productName category description condition
      = (some { Id := uuid
                ProductName := productName
                Category := category
                Description := description
                Condition := condition
                Status := Active
                Timestamp := now1
                EndTime := calculateEndTime frac getenv now2 }, none) :=
  CreateAuction_of_valid frac getenv uuid now1 now2 productName category description
    condition hp hc hd hcond

theorem CreateAuction_valid_witness :
    CreateAuction time.exactFrac (sample.envDuration "5m") "id-1" 1700000000000000000
        1700000000000000005 "Produto Teste" "Eletrônicos"
        "Descrição de teste para validação da entidade" New
      = (some { Id := "id-1"
                ProductName := "Produto Teste"
                Category := "Eletrônicos"
                Description := "Descrição de teste para validação da entidade"
                Condition := New
                Status := Active
                Timestamp := 1700000000000000000
                EndTime := calculateEndTime time.exactFrac (sample.envDuration "5m")
                  1700000000000000005 }, none) :=
  CreateAuction_valid time.exactFrac (sample.envDuration "5m") "id-1" 1700000000000000000
    1700000000000000005 "Produto Teste" "Eletrônicos"
    "Descrição de teste para validação da entidade" New
    (by decide) (by decide) (by decide) (Or.inl rfl)

/-- C2, at the input where the code departs from it: the product name `é` is
one character long, so it violates the rule on the product name and nothing
else, yet `CreateAuction` returns an auction and a nil error, because `len`
counts the two bytes of its UTF-8 encoding. -/
theorem CreateAuction_accepts_one_character_name :
    "é".length = 1 ∧ len "é" = 2 ∧
    CreateAuction time.exactFrac (sample.envDuration "5m") "id-1" 1700000000000000000
        1700000000000000005 "é" "Eletrônicos" "Descrição de teste" New
      = (some { Id := "id-1"
                ProductName := "é"
                Category := "Eletrônicos"
                Description := "Descrição de teste"
                Condition := New
                Status := Active
                Timestamp := 1700000000000000000
                EndTime := 1700000300000000005 }, none) := by
  refine ⟨by decide, by decide, ?_⟩
  simp [CreateAuction, Auction.Validate, len, New, Used, Refurbished, Active]
  decide

/-- C3 as stated fails: with `AUCTION_DURATION` set to `-5m`, a parseable
duration, a valid input yields an auction whose `EndTime` is before its
`Timestamp` and before both clock readings of the creation. -/
theorem CreateAuction_negative_duration :
    CreateAuction time.exactFrac (sample.envDuration "-5m") "id-1" 1700000000000000000
        1700000000000000005 "Produto Teste" "Eletrônicos" "Descrição de teste" New
      = (some { Id := "id-1"
                ProductName := "Produto Teste"
                Category := "Eletrônicos"
                Description := "Descrição de teste"
                Condition := New
                Status := Active
                Timestamp := 1700000000000000000
                EndTime := 1700000000000000005 - 5 * time.Minute }, none) ∧
    (1700000000000000005 - 5 * time.Minute : Int) < 1700000000000000000 := by
  refine ⟨?_, by decide⟩
  simp [CreateAuction, Auction.Validate, len, New, Used, Refurbished, Active]
  decide

/-- C3, amended: for every valid input and every value of `AUCTION_DURATION`
that is unset, empty, unparseable or parses to a strictly positive duration,
and a clock that does not run backwards between the two readings of the
creation, `CreateAuction` returns an auction whose `EndTime` is strictly after
its `Timestamp` and strictly after both clock readings. -/
theorem CreateAuction_endTime_after (frac : Nat → Nat → Nat → Nat)
    (getenv : String → String) (uuid : String) (now1 now2 : Int)
    (productName category description : String) (condition : ProductCondition)
    (hp : 1 < productName.length) (hc : 2 < category.length)
    (hd : 10 < description.length)
    (hcond : condition = New ∨ condition = Used ∨ condition = Refurbished)
    (hclock : now1 ≤ now2)
    (hdur : ∀ d : Int,
      time.ParseDuration frac (getenv "AUCTION_DURATION") = some d → 0 < d) :
    ∃ a : Auction,
      CreateAuction frac getenv uuid now1 now2 productName category description condition
        = (some a, none) ∧
      a.Timestamp = now1 ∧ a.Timestamp < a.EndTime ∧ now1 < a.EndTime ∧
      now2 < a.EndTime := by
  refine ⟨_, CreateAuction_of_valid frac getenv uuid now1 now2 productName category
    description condition hp hc hd hcond, rfl, ?_⟩
  have hpos : now2 < calculateEndTime frac getenv now2 := by
    by_cases he : getenv "AUCTION_DURATION" = ""
    · have h5 : (0 : Int) < 5 * time.Minute := by decide
      simp only [calculateEndTime, he, if_true, ParseDuration_5m]
      omega
    · cases hparse : time.ParseDuration frac (getenv "AUCTION_DURATION") with
      | none =>
        have h5 : (0 : Int) < 5 * time.Minute := by decide
        simp only [calculateEndTime, he, if_false, hparse]
        omega
      | some d =>
        have := hdur d hparse
        simp only [calculateEndTime, he, if_false, hparse]
        omega
  show now1 < calculateEndTime frac getenv now2 ∧ now1 < calculateEndTime frac getenv now2 ∧
    now2 < calculateEndTime frac getenv now2
  omega

theorem CreateAuction_endTime_after_witness :
    ∃ a : Auction,
      CreateAuction time.exactFrac (sample.envDuration "2s") "id-1" 1700000000000000000
          1700000000000000005 "Produto Teste" "Eletrônicos" "Descrição de teste" New
        = (some a, none) ∧
      a.Timestamp = 1700000000000000000 ∧ a.Timestamp < a.EndTime ∧
      1700000000000000000 < a.EndTime ∧ 1700000000000000005 < a.EndTime :=
  CreateAuction_endTime_after time.exactFrac (sample.envDuration "2s") "id-1"
    1700000000000000000 1700000000000000005 "Produto Teste" "Eletrônicos"
    "Descrição de teste" New (by decide) (by decide) (by decide) (Or.inl rfl)
    (by decide)
    (fun d h => by
      have h2 : time.ParseDuration time.exactFrac (sample.envDuration "2s" "AUCTION_DURATION")
          = some 2000000000 := by decide
      rw [h2] at h
      cases h
      decide)

/-- C10: `calculateEndTime` returns its clock reading plus 5 minutes when
`AUCTION_DURATION` is unset or empty or is not a parseable duration, and its
clock reading plus the parsed duration when the string parses; being a total
function it always produces an end time. -/
theorem calculateEndTime_resolution (frac : Nat → Nat → Nat → Nat)
    (getenv : String → String) (now : Int) :
    (getenv "AUCTION_DURATION" = "" →
        calculateEndTime frac getenv now = now + 5 * time.Minute) ∧
    (time.ParseDuration frac (getenv "AUCTION_DURATION") = none →
        calculateEndTime frac getenv now = now + 5 * time.Minute) ∧
    (∀ d : Int, time.ParseDuration frac (getenv "AUCTION_DURATION") = some d →
        calculateEndTime frac getenv now = now + d) := by
  refine ⟨?_, ?_, ?_⟩
  · intro h
    simp [calculateEndTime, h, ParseDuration_5m]
  · intro h
    by_cases he : getenv "AUCTION_DURATION" = ""
    · simp [calculateEndTime, he, ParseDuration_5m]
    · simp [calculateEndTime, he, h]
  · intro d h
    have he : getenv "AUCTION_DURATION" ≠ "" := by
      intro he
      rw [he, ParseDuration_empty] at h
      cases h
    simp [calculateEndTime, he, h]

theorem calculateEndTime_resolution_witness :
    calculateEndTime time.exactFrac (sample.envDuration "") 1700000000000000000
        = 1700000000000000000 + 5 * time.Minute ∧
    calculateEndTime time.exactFrac (sample.envDuration "soon") 1700000000000000000
        = 1700000000000000000 + 5 * time.Minute ∧
    calculateEndTime time.exactFrac (sample.envDuration "2s") 1700000000000000000
        = 1700000000000000000 + 2 * time.Second :=
  ⟨(calculateEndTime_resolution time.exactFrac (sample.envDuration "") 1700000000000000000).1
      (by decide),
   (calculateEndTime_resolution time.exactFrac (sample.envDuration "soon")
      1700000000000000000).2.1 (by decide),
   (calculateEndTime_resolution time.exactFrac (sample.envDuration "2s")
      1700000000000000000).2.2 (2 * time.Second) (by decide)⟩

end auction_entity

/-! ## The repository -/

namespace auction

open internal_error auction_entity

namespace AuctionRepository

/-- C4 as stated fails: on a collection holding one Active auction, the second
`closeAuction` on its id returns a non-nil error, the internal server error
`Auction was not modified during closing`. -/
theorem closeAuction_twice_returns_error :
    (closeAuction false "a1" [sample.doc "a1" Active 1700000300]).1 = none ∧
    (closeAuction false "a1"
        (closeAuction false "a1" [sample.doc "a1" Active 1700000300]).2).1
      = some (NewInternalServerError "Auction was not modified during closing") ∧
    (closeAuction false "a1"
        (closeAuction false "a1" [sample.doc "a1" Active 1700000300]).2).1 ≠ none := by
  decide

/-- C4, amended: calling `closeAuction` twice on the id of a stored Active
auction, with no storage failure: the first call returns nil and leaves that
record Completed and every other record as it was; the second call changes
nothing, so the status stays Completed, and it signals the no-op by returning
the internal server error `Auction was not modified during closing`, which is
neither nil nor the not-found error. -/
theorem closeAuction_twice (c : Collection) (d : AuctionEntityMongo)
    (hwf : WellFormed c) (hd : d ∈ c) (hs : d.Status = Active) :
    (closeAuction false d.Id c).1 = none ∧
    (closeAuction false d.Id c).2
      = c.map (fun x => if x.Id = d.Id then withStatus Completed x else x) ∧
    withStatus Completed d ∈ (closeAuction false d.Id c).2 ∧
    (closeAuction false d.Id (closeAuction false d.Id c).2).1
      = some (NewInternalServerError "Auction was not modified during closing") ∧
    (closeAuction false d.Id (closeAuction false d.Id c).2).2
      = (closeAuction false d.Id c).2 := by
  have hne : ¬ d.Status = Completed := by rw [hs]; decide
  have h1 := setStatus_fst d.Id Completed c hwf d hd rfl
  have h2 := setStatus_snd d.Id Completed c hwf
  simp only [hne, if_false] at h1
  have hfirst : closeAuction false d.Id c
      = (none, c.map (fun x => if x.Id = d.Id then withStatus Completed x else x)) := by
    simp only [closeAuction, UpdateOne, Bool.false_eq_true, if_false, h1]
    simp [h2]
  have hf : ∀ x : AuctionEntityMongo,
      (if x.Id = d.Id then withStatus Completed x else x).Id = x.Id := by
    intro x; split <;> rfl
  have hwf' := wellFormed_map _ hf c hwf
  have hd' : withStatus Completed d
      ∈ c.map (fun x => if x.Id = d.Id then withStatus Completed x else x) :=
    List.mem_map.2 ⟨d, hd, by simp⟩
  have h3 := setStatus_fst d.Id Completed _ hwf' (withStatus Completed d) hd' rfl
  have h4 := setStatus_snd d.Id Completed _ hwf'
  have hidem : (c.map (fun x => if x.Id = d.Id then withStatus Completed x else x)).map
      (fun x => if x.Id = d.Id then withStatus Completed x else x)
      = c.map (fun x => if x.Id = d.Id then withStatus Completed x else x) := by
    rw [List.map_map]
    apply List.map_congr_left
    intro x _
    by_cases hx : x.Id = d.Id <;> simp [hx, withStatus]
  have hsecond : closeAuction false d.Id
      (c.map (fun x => if x.Id = d.Id then withStatus Completed x else x))
      = (some (NewInternalServerError "Auction was not modified during closing"),
         c.map (fun x => if x.Id = d.Id then withStatus Completed x else x)) := by
    have hst : (withStatus Completed d).Status = Completed := rfl
    simp only [hst, if_true] at h3
    simp only [closeAuction, UpdateOne, Bool.false_eq_true, if_false, h3]
    simp [h4, hidem]
  rw [hfirst]
  exact ⟨rfl, rfl, hd', by rw [hsecond], by rw [hsecond]⟩

theorem closeAuction_twice_witness :
    (closeAuction false "a1"
        [sample.doc "a0" Completed 1700000000, sample.doc "a1" Active 1700000300]).1
      = none ∧
    (closeAuction false "a1"
        [sample.doc "a0" Completed 1700000000, sample.doc "a1" Active 1700000300]).2
      = [sample.doc "a0" Completed 1700000000, sample.doc "a1" Completed 1700000300] :=
  have h := closeAuction_twice
    [sample.doc "a0" Completed 1700000000, sample.doc "a1" Active 1700000300]
    (sample.doc "a1" Active 1700000300) (by decide) (by decide) rfl
  ⟨h.1, h.2.1.trans (by decide)⟩

/-- C5: `findExpiredAuctions`, run at the clock reading `timeNow` with no storage
failure, returns a nil error and exactly the stored records whose status is
Active and whose `end_time` is at most `timeNow` in whole Unix seconds, each
as an entity with the same id, texts, condition and status and with the stored
times; so every entity returned is Active with an end time of at most
`timeNow`, and no Completed record and no record with a later `end_time` is
among them. -/
theorem findExpiredAuctions_exact (timeNow : Int) (c : Collection) :
    (findExpiredAuctions false false timeNow c).2 = none ∧
    List.Forall₂
      (fun (a : Auction) (d : AuctionEntityMongo) =>
        a.Id = d.Id ∧ a.ProductName = d.ProductName ∧ a.Category = d.Category ∧
        a.Description = d.Description ∧ a.Condition = d.Condition ∧
        a.Status = d.Status ∧ a.Timestamp = time.Unix d.Timestamp ∧
        a.EndTime = time.Unix d.EndTime)
      (findExpiredAuctions false false timeNow c).1
      (c.filter (fun d =>
        decide (d.Status = Active ∧ d.EndTime ≤ time.unixSeconds timeNow))) ∧
    (∀ a ∈ (findExpiredAuctions false false timeNow c).1,
      a.Status = Active ∧ a.Status ≠ Completed ∧ a.EndTime ≤ timeNow ∧
      time.unixSeconds a.EndTime ≤ time.unixSeconds timeNow) := by
  have hres : findExpiredAuctions false false timeNow c
      = ((c.filter (fun d =>
          decide (d.Status = Active ∧ d.EndTime ≤ time.unixSeconds timeNow))).map toEntity,
         none) := by
    simp [findExpiredAuctions, Find]
  rw [hres]
  refine ⟨rfl, ?_, ?_⟩
  · rw [List.forall₂_map_left_iff]
    apply List.forall₂_same.2
    intro d _
    exact ⟨rfl, rfl, rfl, rfl, rfl, rfl, rfl, rfl⟩
  · intro a ha
    obtain ⟨d, hd, rfl⟩ := List.mem_map.1 ha
    have hp := (List.mem_filter.1 hd).2
    simp only [decide_eq_true_eq] at hp
    have hle : time.Unix d.EndTime ≤ timeNow := by
      have h1 := Unix_unixSeconds_le timeNow
      have h2 : time.Unix d.EndTime ≤ time.Unix (time.unixSeconds timeNow) := by
        unfold time.Unix
        exact Int.mul_le_mul_of_nonneg_right hp.2 (by norm_num)
      exact le_trans h2 h1
    refine ⟨hp.1, ?_, hle, ?_⟩
    · show d.Status ≠ Completed
      rw [hp.1]; decide
    · show time.unixSeconds (time.Unix d.EndTime) ≤ time.unixSeconds timeNow
      rw [unixSeconds_Unix]; exact hp.2

/-- C6 as stated fails: an auction whose `EndTime` is 0.9 s past a whole second
is stored with that whole second as `end_time`, and a scan 0.1 s past the same
second returns it although its `EndTime` is still after the clock reading. -/
theorem expired_before_endTime :
    (CreateAuction false sample.lateAuction []).1 = none ∧
    ((findExpiredAuctions false false 1700000000100000000
        (CreateAuction false sample.lateAuction []).2).1.map (fun a => a.Id))
      = [sample.lateAuction.Id] ∧
    (1700000000100000000 : Int) < sample.lateAuction.EndTime := by
  decide

/-- C6, amended: for every auction entity persisted through the repository's
`CreateAuction` and every clock reading `timeNow` at which a scan runs, if the
auction is returned by `findExpiredAuctions`, then the entity's `EndTime` in
whole Unix seconds is not after `timeNow` in whole Unix seconds, so the
`EndTime` is less than one second after `timeNow`; and the `EndTime` of the
entity returned, which is the stored whole second, is not after `timeNow`. -/
theorem expired_not_before_endTime_second (insertFails findFails decodeFails : Bool)
    (c c' : Collection) (auctionEntity : Auction) (timeNow : Int)
    (hins : CreateAuction insertFails auctionEntity c = (none, c'))
    (a : Auction)
    (ha : a ∈ (findExpiredAuctions findFails decodeFails timeNow c').1)
    (hid : a.Id = auctionEntity.Id) :
    time.unixSeconds auctionEntity.EndTime ≤ time.unixSeconds timeNow ∧
    auctionEntity.EndTime < timeNow + time.Second ∧
    a.EndTime = time.Unix (time.unixSeconds auctionEntity.EndTime) ∧
    a.EndTime ≤ timeNow := by
  -- what the insert did
  have hc' : c' = c ++ [toMongo auctionEntity] ∧
      ∀ x ∈ c, x.Id ≠ auctionEntity.Id := by
    unfold CreateAuction InsertOne at hins
    by_cases hf : insertFails = true
    · simp [hf] at hins
    · by_cases hdup : (toMongo auctionEntity).Id ∈ c.map (fun d => d.Id)
      · simp [hf, hdup] at hins
      · simp only [hf, hdup, if_false] at hins
        refine ⟨(Prod.mk.inj hins).2.symm, ?_⟩
        intro x hx hxe
        exact hdup (List.mem_map.2 ⟨x, hx, hxe⟩)
  -- what the scan returned
  have hmem : ∃ d ∈ c', (d.Status = Active ∧ d.EndTime ≤ time.unixSeconds timeNow) ∧
      toEntity d = a := by
    unfold findExpiredAuctions Find at ha
    by_cases hf : findFails = true
    · simp [hf] at ha
    · by_cases hdec : decodeFails = true
      · simp [hf, hdec] at ha
      · simp only [hf, hdec, if_false] at ha
        obtain ⟨d, hd, hda⟩ := List.mem_map.1 ha
        have hd' := List.mem_filter.1 hd
        exact ⟨d, hd'.1, by simpa using hd'.2, hda⟩
  obtain ⟨d, hd, hp, rfl⟩ := hmem
  have hdeq : d = toMongo auctionEntity := by
    rw [hc'.1] at hd
    rcases List.mem_append.1 hd with h | h
    · exact absurd hid (hc'.2 d h)
    · simpa using h
  subst hdeq
  have hsec : time.unixSeconds auctionEntity.EndTime ≤ time.unixSeconds timeNow := hp.2
  have h1 := lt_Unix_unixSeconds_add auctionEntity.EndTime
  have h2 := Unix_unixSeconds_le timeNow
  have h3 : time.Unix (time.unixSeconds auctionEntity.EndTime)
      ≤ time.Unix (time.unixSeconds timeNow) := by
    unfold time.Unix
    exact Int.mul_le_mul_of_nonneg_right hsec (by norm_num)
  refine ⟨hsec, by linarith, rfl, ?_⟩
  show time.Unix (time.unixSeconds auctionEntity.EndTime) ≤ timeNow
  linarith

theorem expired_not_before_endTime_second_witness :
    time.unixSeconds sample.lateAuction.EndTime ≤ time.unixSeconds 1700000000100000000 ∧
    sample.lateAuction.EndTime < 1700000000100000000 + time.Second ∧
    (toEntity (toMongo sample.lateAuction)).EndTime
      = time.Unix (time.unixSeconds sample.lateAuction.EndTime) ∧
    (toEntity (toMongo sample.lateAuction)).EndTime ≤ 1700000000100000000 :=
  expired_not_before_endTime_second false false false [] [toMongo sample.lateAuction]
    sample.lateAuction 1700000000100000000 (by decide)
    (toEntity (toMongo sample.lateAuction)) (by decide) rfl

end AuctionRepository

end auction

/-! ## The closing worker -/

namespace auction

open internal_error auction_entity

/-- The batch loop begins one `closeAuction` for each auction of the list, in
order, whatever the calls return. -/
theorem closeExpired_calls (env : Env) (expired : List Auction) (w : WorkerState) :
    (closeExpired env expired w).log.map (fun e => e.call)
      = w.log.map (fun e => e.call) ++ expired.map (fun a => Call.close a.Id) := by
  induction expired generalizing w with
  | nil => simp [closeExpired]
  | cons a rest ih => simp [closeExpired, ih]

theorem closeExpired_step (env : Env) (expired : List Auction) (w : WorkerState) :
    (closeExpired env expired w).step = w.step + expired.length := by
  induction expired generalizing w with
  | nil => simp [closeExpired]
  | cons a rest ih =>
    simp only [closeExpired, ih, List.length_cons]
    omega

/-- With no failing update and no other client, the batch loop completes the
documents whose `_id` is in the list and no other. -/
theorem closeExpired_coll (env : Env) (expired : List Auction) (w : WorkerState)
    (hupd : ∀ k, env.updateFails k = false) (hothers : ∀ k c, env.others k c = c)
    (hwf : WellFormed w.coll) :
    (closeExpired env expired w).coll
      = w.coll.map (fun d =>
          if d.Id ∈ expired.map (fun a => a.Id) then withStatus Completed d else d) := by
  induction expired generalizing w with
  | nil => simp [closeExpired]
  | cons a rest ih =>
    have hf : ∀ x : AuctionEntityMongo,
        (if x.Id = a.Id then withStatus Completed x else x).Id = x.Id := by
      intro x; split <;> rfl
    have hstep : (AuctionRepository.closeAuction (env.updateFails w.step) a.Id
        (env.others w.step w.coll)).2
        = w.coll.map (fun x => if x.Id = a.Id then withStatus Completed x else x) := by
      rw [AuctionRepository.closeAuction_snd, hupd, hothers]
      simp only [Bool.false_eq_true, if_false]
      exact setStatus_snd a.Id Completed w.coll hwf
    simp only [closeExpired]
    rw [ih]
    · simp only [hstep, List.map_map]
      apply List.map_congr_left
      intro x _
      by_cases hx : x.Id = a.Id
      · simp [hx, withStatus]
      · simp [hx]
    · show WellFormed (AuctionRepository.closeAuction (env.updateFails w.step) a.Id
        (env.others w.step w.coll)).2
      rw [hstep]
      exact wellFormed_map _ hf w.coll hwf

/-- A round whose check finds the signal set only records that the worker
returns. -/
theorem workerRound_cancelled (env : Env) (interval : Int) (w : WorkerState)
    (h : env.cancelled w.step = true) :
    workerRound env interval w
      = ({ coll := w.coll
           step := w.step + 1
           log := w.log ++ [{ step := w.step, call := Call.done, cancelled := true,
                              err := none }] },
         true) := by
  simp [workerRound, h]

theorem workerRound_step (env : Env) (interval : Int) (w : WorkerState) :
    w.step < (workerRound env interval w).1.step := by
  unfold workerRound
  by_cases h : env.cancelled w.step = true
  · simp [h]
  · have hb : env.cancelled w.step = false := by simpa using h
    simp only [hb, Bool.false_eq_true, if_false]
    generalize AuctionRepository.findExpiredAuctions _ _ _ _ = r
    rcases r with ⟨found, _ | err⟩
    · simp only [sleep, closeExpired_step]; omega
    · simp only [sleep]; omega

theorem workerRound_running (env : Env) (interval : Int) (w : WorkerState)
    (h : env.cancelled w.step = false) : (workerRound env interval w).2 = false := by
  unfold workerRound
  simp only [h, Bool.false_eq_true, if_false]
  generalize AuctionRepository.findExpiredAuctions _ _ _ _ = r
  rcases r with ⟨found, _ | err⟩ <;> rfl

theorem cancelled_mono (env : Env) {j k : Nat} (hjk : j ≤ k)
    (h : env.cancelled j = true) : env.cancelled k = true := by
  unfold Env.cancelled at *
  cases hc : env.cancelAt with
  | none => simp [hc] at h
  | some c =>
    simp only [hc, decide_eq_true_eq] at h ⊢
    omega

/-- Once the signal is due at step `c`, the loop returns within `n + 1` rounds
from any state at most `n` steps before `c`. -/
theorem workerLoop_returns (env : Env) (interval : Int) (c : Nat)
    (hc : env.cancelAt = some c) (n : Nat) (w : WorkerState) (h : c ≤ w.step + n) :
    (workerLoop env interval (n + 1) w).2 = true := by
  induction n generalizing w with
  | zero =>
    have hcan : env.cancelled w.step = true := by
      simp only [Env.cancelled, hc, decide_eq_true_eq]; omega
    simp [workerLoop, workerRound_cancelled env interval w hcan]
  | succ n ih =>
    rw [workerLoop]
    by_cases hr : (workerRound env interval w).2 = true
    · simp [hr]
    · simp only [hr, if_false]
      apply ih
      have := workerRound_step env interval w
      omega

/-- The batch loop adds only `closeAuction` calls to the history. -/
theorem closeExpired_log_mem (env : Env) (expired : List Auction) (w : WorkerState)
    (e : Event) (he : e ∈ (closeExpired env expired w).log) :
    e ∈ w.log ∨ ∃ id, e.call = Call.close id := by
  induction expired generalizing w with
  | nil => exact Or.inl he
  | cons a rest ih =>
    rw [closeExpired] at he
    rcases ih _ he with h | h
    · rcases List.mem_append.1 h with h | h
      · exact Or.inl h
      · simp only [List.mem_singleton] at h
        exact Or.inr ⟨a.Id, by rw [h]⟩
    · exact Or.inr h

/-- A scan that a round adds to the history began one step after a check that
found the signal unset. -/
theorem workerRound_scan (env : Env) (interval : Int) (w : WorkerState) (e : Event)
    (he : e ∈ (workerRound env interval w).1.log) (hscan : e.call = Call.scan) :
    e ∈ w.log ∨ (e.step = w.step + 1 ∧ env.cancelled w.step = false) := by
  unfold workerRound at he
  by_cases h : env.cancelled w.step = true
  · simp only [h, if_true] at he
    rcases List.mem_append.1 he with h1 | h1
    · exact Or.inl h1
    · simp only [List.mem_singleton] at h1
      rw [h1] at hscan
      cases hscan
  · have hb : env.cancelled w.step = false := by simpa using h
    simp only [hb, Bool.false_eq_true, if_false] at he
    generalize AuctionRepository.findExpiredAuctions _ _ _ _ = r at he
    rcases r with ⟨found, _ | err⟩
    · simp only [sleep] at he
      rcases List.mem_append.1 he with h1 | h1
      · rcases closeExpired_log_mem env found _ e h1 with h2 | ⟨id, h2⟩
        · rcases List.mem_append.1 h2 with h3 | h3
          · exact Or.inl h3
          · simp only [List.mem_singleton] at h3
            exact Or.inr ⟨by rw [h3], hb⟩
        · rw [h2] at hscan
          cases hscan
      · simp only [List.mem_singleton] at h1
        rw [h1] at hscan
        cases hscan
    · simp only [sleep] at he
      rcases List.mem_append.1 he with h1 | h1
      · rcases List.mem_append.1 h1 with h3 | h3
        · exact Or.inl h3
        · simp only [List.mem_singleton] at h3
          exact Or.inr ⟨by rw [h3], hb⟩
      · simp only [List.mem_singleton] at h1
        rw [h1] at hscan
        cases hscan

/-- Every scan in the history of the loop began one step after a check that
found the signal unset, if that holds of the history it started with. -/
theorem workerLoop_scan (env : Env) (interval : Int) (rounds : Nat) (w : WorkerState)
    (hw : ∀ e ∈ w.log, e.call = Call.scan →
      0 < e.step ∧ env.cancelled (e.step - 1) = false)
    (e : Event) (he : e ∈ (workerLoop env interval rounds w).1.log)
    (hscan : e.call = Call.scan) :
    0 < e.step ∧ env.cancelled (e.step - 1) = false := by
  induction rounds generalizing w with
  | zero => exact hw e he hscan
  | succ n ih =>
    have hround : ∀ x ∈ (workerRound env interval w).1.log, x.call = Call.scan →
        0 < x.step ∧ env.cancelled (x.step - 1) = false := by
      intro x hx hxs
      rcases workerRound_scan env interval w x hx hxs with h | ⟨h1, h2⟩
      · exact hw x h hxs
      · rw [h1]
        exact ⟨by omega, by simpa using h2⟩
    rw [workerLoop] at he
    by_cases hr : (workerRound env interval w).2 = true
    · simp only [hr, if_true] at he
      exact hround e he hscan
    · simp only [hr, if_false] at he
      exact ih _ hround he

end auction

/-! ## The batch loop, call by call -/

namespace auction

open internal_error auction_entity

/-- The batch loop really runs `closeAuction` for each auction of the list, in
order: `store i` being the collection the worker holds before its call number
`i`, each call is made on what the other clients left of `store i`, its result
is the collection held next, the last one is the collection after the loop,
and the error each call returned is the one recorded. -/
theorem closeExpired_chain (env : Env) (expired : List Auction) (w : WorkerState) :
    ∃ store : Nat → Collection,
      store 0 = w.coll ∧
      (∀ i a, expired[i]? = some a →
        store (i + 1)
          = (AuctionRepository.closeAuction (env.updateFails (w.step + i)) a.Id
              (env.others (w.step + i) (store i))).2) ∧
      (closeExpired env expired w).coll = store expired.length ∧
      (closeExpired env expired w).log
        = w.log ++ expired.mapIdx (fun i a =>
            { step := w.step + i
              call := Call.close a.Id
              cancelled := env.cancelled (w.step + i)
              err := (AuctionRepository.closeAuction (env.updateFails (w.step + i)) a.Id
                (env.others (w.step + i) (store i))).1 }) := by
  induction expired generalizing w with
  | nil => exact ⟨fun _ => w.coll, rfl, fun i a h => by simp at h, rfl, by simp [closeExpired]⟩
  | cons a rest ih =>
    obtain ⟨store', h0, hstep, hcoll, hlog⟩ := ih
      { coll := (AuctionRepository.closeAuction (env.updateFails w.step) a.Id
          (env.others w.step w.coll)).2
        step := w.step + 1
        log := w.log ++ [{ step := w.step
                           call := Call.close a.Id
                           cancelled := env.cancelled w.step
                           err := (AuctionRepository.closeAuction (env.updateFails w.step)
                             a.Id (env.others w.step w.coll)).1 }] }
    refine ⟨fun n => match n with | 0 => w.coll | n + 1 => store' n, rfl, ?_, ?_, ?_⟩
    · intro i b hb
      cases i with
      | zero =>
        simp only [List.getElem?_cons_zero, Option.some.injEq] at hb
        subst hb
        simp only [Nat.add_zero]
        exact h0
      | succ j =>
        simp only [List.getElem?_cons_succ] at hb
        have := hstep j b hb
        simp only [Nat.add_assoc, Nat.add_comm 1 j] at this
        exact this
    · simp only [closeExpired, List.length_cons]
      exact hcoll
    · simp only [closeExpired, hlog, List.mapIdx_cons, List.append_assoc, List.singleton_append,
        Nat.add_zero]
      congr 2
      apply congrArg (fun f => List.mapIdx f rest)
      funext i b
      simp only [Nat.add_assoc, Nat.add_comm 1 i]

namespace AuctionRepository

/-- In a store with unique `_id`, `closeAuction` leaves the collection as it
was or completes the documents with that `_id`. -/
theorem closeAuction_snd_cases (updateFails : Bool) (auctionId : String) (c : Collection)
    (hwf : WellFormed c) :
    (closeAuction updateFails auctionId c).2 = c ∨
    (closeAuction updateFails auctionId c).2
      = c.map (fun x => if x.Id = auctionId then withStatus Completed x else x) := by
  rw [closeAuction_snd]
  cases updateFails
  · right
    simp only [Bool.false_eq_true, if_false]
    exact setStatus_snd auctionId Completed c hwf
  · left; rfl

/-- A failed update changes nothing and is reported as a storage error. -/
theorem closeAuction_failed (auctionId : String) (c : Collection) :
    closeAuction true auctionId c
      = (some (NewInternalServerError "Error trying to close auction"), c) := by
  simp [closeAuction, UpdateOne]

/-- A document completed once stays completed whatever is closed later. -/
theorem closeAuction_keeps_completed (updateFails : Bool) (auctionId id : String)
    (c : Collection) (hwf : WellFormed c)
    (h : ∃ d ∈ c, d.Id = id ∧ d.Status = Completed) :
    ∃ d ∈ (closeAuction updateFails auctionId c).2, d.Id = id ∧ d.Status = Completed := by
  rcases closeAuction_snd_cases updateFails auctionId c hwf with h1 | h1
  · rw [h1]; exact h
  · rw [h1]
    obtain ⟨d, hd, hid, hs⟩ := h
    refine ⟨if d.Id = auctionId then withStatus Completed d else d,
      List.mem_map.2 ⟨d, hd, rfl⟩, ?_, ?_⟩
    · split <;> simp [withStatus, hid]
    · split
      · rfl
      · exact hs

/-- Closing keeps every `_id` in the store. -/
theorem closeAuction_keeps_id (updateFails : Bool) (auctionId id : String)
    (c : Collection) (hwf : WellFormed c) (h : ∃ d ∈ c, d.Id = id) :
    ∃ d ∈ (closeAuction updateFails auctionId c).2, d.Id = id := by
  rcases closeAuction_snd_cases updateFails auctionId c hwf with h1 | h1
  · rw [h1]; exact h
  · rw [h1]
    obtain ⟨d, hd, hid⟩ := h
    refine ⟨if d.Id = auctionId then withStatus Completed d else d,
      List.mem_map.2 ⟨d, hd, rfl⟩, ?_⟩
    split <;> simp [withStatus, hid]

/-- An update that does not fail completes the document with that `_id`. -/
theorem closeAuction_completes (auctionId : String) (c : Collection) (hwf : WellFormed c)
    (h : ∃ d ∈ c, d.Id = auctionId) :
    ∃ d ∈ (closeAuction false auctionId c).2, d.Id = auctionId ∧ d.Status = Completed := by
  rw [closeAuction_snd]
  simp only [Bool.false_eq_true, if_false]
  rw [setStatus_snd auctionId Completed c hwf]
  obtain ⟨d, hd, hid⟩ := h
  exact ⟨withStatus Completed d, List.mem_map.2 ⟨d, hd, by simp [hid]⟩, hid, rfl⟩

end AuctionRepository

end auction

namespace auction

open internal_error auction_entity

/-- Every auction a scan returns is stored under its id. -/
theorem findExpiredAuctions_stored (findFails decodeFails : Bool) (timeNow : Int)
    (c : Collection) (found : List Auction)
    (h : AuctionRepository.findExpiredAuctions findFails decodeFails timeNow c = (found, none))
    (a : Auction) (ha : a ∈ found) : ∃ d ∈ c, d.Id = a.Id := by
  unfold AuctionRepository.findExpiredAuctions Find at h
  by_cases hf : findFails = true
  · simp [hf] at h
  · by_cases hdec : decodeFails = true
    · simp [hf, hdec] at h
    · simp only [hf, hdec, if_false] at h
      have hfound := (Prod.mk.inj h).1
      rw [← hfound] at ha
      obtain ⟨d, hd, hda⟩ := List.mem_map.1 ha
      exact ⟨d, (List.mem_filter.1 hd).1, by rw [← hda]; rfl⟩

/-- A property of the store that every `closeAuction` keeps holds all along a
batch that no other client disturbs. -/
theorem chain_invariant (env : Env) (found : List Auction) (s : Nat)
    (store : Nat → Collection) (hothers : ∀ k c, env.others k c = c)
    (hstep : ∀ i a, found[i]? = some a →
      store (i + 1)
        = (AuctionRepository.closeAuction (env.updateFails (s + i)) a.Id
            (env.others (s + i) (store i))).2)
    (Inv : Collection → Prop)
    (hInv : ∀ f id c, WellFormed c → Inv c → Inv (AuctionRepository.closeAuction f id c).2)
    (j : Nat) (hj : WellFormed (store j) ∧ Inv (store j)) (k : Nat)
    (hk : j + k ≤ found.length) : WellFormed (store (j + k)) ∧ Inv (store (j + k)) := by
  induction k with
  | zero => exact hj
  | succ k ih =>
    have hprev := ih (by omega)
    have hlt : j + k < found.length := by omega
    have hget : found[j + k]? = some found[j + k] := List.getElem?_eq_getElem hlt
    have hs := hstep (j + k) _ hget
    rw [hothers] at hs
    have : j + (k + 1) = j + k + 1 := by omega
    rw [this, hs]
    exact ⟨AuctionRepository.wellFormed_closeAuction _ _ _ hprev.1,
      hInv _ _ _ hprev.1 hprev.2⟩

/-- What a round that runs and whose scan succeeds leaves behind. -/
theorem workerRound_scanned (env : Env) (interval : Int) (w : WorkerState)
    (found : List Auction) (hrun : env.cancelled w.step = false)
    (hscan : AuctionRepository.findExpiredAuctions (env.findFails (w.step + 1))
      (env.decodeFails (w.step + 1)) (env.clock (w.step + 1))
      (env.others (w.step + 1) w.coll) = (found, none)) :
    workerRound env interval w
      = (sleep env interval (closeExpired env found
          { coll := env.others (w.step + 1) w.coll
            step := w.step + 2
            log := w.log ++ [{ step := w.step + 1, call := Call.scan,
                               cancelled := env.cancelled (w.step + 1), err := none }] }),
         false) := by
  simp only [workerRound, hrun, Bool.false_eq_true, if_false, hscan]

end auction

namespace auction

open internal_error auction_entity

/-- A round that runs and whose scan succeeds really runs `closeAuction` for each
auction the scan returned: `store i` is the collection the worker holds before
its call number `i` of the round. -/
theorem workerRound_chain (env : Env) (interval : Int) (w : WorkerState)
    (found : List Auction) (hrun : env.cancelled w.step = false)
    (hscan : AuctionRepository.findExpiredAuctions (env.findFails (w.step + 1))
      (env.decodeFails (w.step + 1)) (env.clock (w.step + 1))
      (env.others (w.step + 1) w.coll) = (found, none)) :
    ∃ store : Nat → Collection,
      store 0 = env.others (w.step + 1) w.coll ∧
      (∀ i a, found[i]? = some a →
        store (i + 1)
          = (AuctionRepository.closeAuction (env.updateFails (w.step + 2 + i)) a.Id
              (env.others (w.step + 2 + i) (store i))).2) ∧
      (workerRound env interval w).1.coll = store found.length ∧
      (workerRound env interval w).1.log
        = w.log
          ++ [{ step := w.step + 1, call := Call.scan,
                cancelled := env.cancelled (w.step + 1), err := none }]
          ++ found.mapIdx (fun i a =>
              { step := w.step + 2 + i
                call := Call.close a.Id
                cancelled := env.cancelled (w.step + 2 + i)
                err := (AuctionRepository.closeAuction (env.updateFails (w.step + 2 + i)) a.Id
                  (env.others (w.step + 2 + i) (store i))).1 })
          ++ [{ step := w.step + 2 + found.length
                call := Call.sleep interval
                cancelled := env.cancelled (w.step + 2 + found.length)
                err := none }] := by
  obtain ⟨store, h0, hstep, hcoll, hlog⟩ := closeExpired_chain env found
    { coll := env.others (w.step + 1) w.coll
      step := w.step + 2
      log := w.log ++ [{ step := w.step + 1, call := Call.scan,
                         cancelled := env.cancelled (w.step + 1), err := none }] }
  refine ⟨store, h0, hstep, ?_, ?_⟩
  · rw [workerRound_scanned env interval w found hrun hscan]
    exact hcoll
  · rw [workerRound_scanned env interval w found hrun hscan]
    simp only [sleep, hlog, closeExpired_step]

namespace AuctionRepository

/-- One round of the worker, when the check finds the signal unset. -/
theorem StartAuctionClosingWorker_one (frac : Nat → Nat → Nat → Nat)
    (getenv : String → String) (env : Env) (w : WorkerState)
    (hrun : env.cancelled w.step = false) :
    StartAuctionClosingWorker frac getenv env 1 w
      = ((workerRound env (checkInterval frac getenv) w).1, false) := by
  have hflag := workerRound_running env (checkInterval frac getenv) w hrun
  simp only [StartAuctionClosingWorker, workerLoop, hflag, Bool.false_eq_true, if_false]

end AuctionRepository

end auction

namespace auction

open internal_error auction_entity

namespace AuctionRepository

/-- C7: one round of `StartAuctionClosingWorker` run at the clock reading `now`
over a store in which no call fails (and which no other client changes
meanwhile): afterwards every record that was Active with `end_time` at most
`now` in whole Unix seconds is the same record with status Completed, and every
other record is unchanged; no field other than the status changes. -/
theorem worker_round_closes_expired (frac : Nat → Nat → Nat → Nat)
    (getenv : String → String) (env : Env) (w : WorkerState) (now : Int)
    (hwf : WellFormed w.coll)
    (hrun : env.cancelled w.step = false)
    (hnow : env.clock (w.step + 1) = now)
    (hfind : ∀ k, env.findFails k = false)
    (hdec : ∀ k, env.decodeFails k = false)
    (hupd : ∀ k, env.updateFails k = false)
    (hothers : ∀ k c, env.others k c = c) :
    (StartAuctionClosingWorker frac getenv env 1 w).1.coll
      = w.coll.map (fun d =>
          if d.Status = Active ∧ d.EndTime ≤ time.unixSeconds now
          then withStatus Completed d else d) := by
  have hres : findExpiredAuctions false false now w.coll
      = ((w.coll.filter (fun d =>
          decide (d.Status = Active ∧ d.EndTime ≤ time.unixSeconds now))).map toEntity,
         none) := by
    simp [findExpiredAuctions, Find]
  have hround : (workerRound env (checkInterval frac getenv) w).1.coll
      = w.coll.map (fun d =>
          if d.Status = Active ∧ d.EndTime ≤ time.unixSeconds now
          then withStatus Completed d else d) := by
    simp only [workerRound, hrun, Bool.false_eq_true, if_false, hfind, hdec, hothers, hnow,
      hres, sleep]
    rw [closeExpired_coll env _
      { coll := w.coll
        step := w.step + 1 + 1
        log := w.log ++ [{ step := w.step + 1, call := Call.scan,
                           cancelled := env.cancelled (w.step + 1), err := none }] }
      hupd hothers hwf]
    apply List.map_congr_left
    intro d hd
    have hiff : d.Id ∈ ((w.coll.filter (fun d =>
          decide (d.Status = Active ∧ d.EndTime ≤ time.unixSeconds now))).map toEntity).map
          (fun a => a.Id)
        ↔ (d.Status = Active ∧ d.EndTime ≤ time.unixSeconds now) := by
      constructor
      · intro h
        obtain ⟨a, ha, hid⟩ := List.mem_map.1 h
        obtain ⟨x, hx, rfl⟩ := List.mem_map.1 ha
        have hx' := List.mem_filter.1 hx
        have hxd : x = d := eq_of_id_eq hwf hx'.1 hd hid
        subst hxd
        simpa using hx'.2
      · intro h
        refine List.mem_map.2 ⟨toEntity d, List.mem_map.2 ⟨d, ?_, rfl⟩, rfl⟩
        exact List.mem_filter.2 ⟨hd, by simpa using h⟩
    by_cases hp : d.Status = Active ∧ d.EndTime ≤ time.unixSeconds now
    · rw [if_pos (hiff.2 hp), if_pos hp]
    · rw [if_neg (fun h => hp (hiff.1 h)), if_neg hp]
  have hflag := workerRound_running env (checkInterval frac getenv) w hrun
  simp only [StartAuctionClosingWorker, workerLoop, hflag, Bool.false_eq_true, if_false]
  exact hround

theorem worker_round_closes_expired_witness :
    (StartAuctionClosingWorker time.exactFrac sample.envEmpty
        (sample.quiet 1700000000100000000) 1
        { coll := [sample.doc "a" Active 1700000000, sample.doc "b" Active 1700000001,
                   sample.doc "c" Completed 1600000000]
          step := 0
          log := [] }).1.coll
      = [sample.doc "a" Completed 1700000000, sample.doc "b" Active 1700000001,
         sample.doc "c" Completed 1600000000] :=
  (worker_round_closes_expired time.exactFrac sample.envEmpty
    (sample.quiet 1700000000100000000)
    { coll := [sample.doc "a" Active 1700000000, sample.doc "b" Active 1700000001,
               sample.doc "c" Completed 1600000000]
      step := 0
      log := [] }
    1700000000100000000 (by decide) rfl rfl (fun _ => rfl) (fun _ => rfl) (fun _ => rfl)
    (fun _ _ => rfl)).trans (by decide)

/-- C8: whatever list of expired auctions the scan of a round returns and
whatever each `closeAuction` returns (nil, not found, not modified, storage
error), the round runs `closeAuction` exactly once for each returned auction,
in order, then begins the sleep, and the worker has not returned. Each call is
made on the collection the call before left (as the other clients changed it
meanwhile), the collection after the round is the one the last call left, and
the history records for each call the error that call returned; so a call that
fails neither stops nor undoes the others. In particular, with no other client
writing and unique `_id`, every returned auction whose own update does not fail
is Completed afterwards, whichever other calls failed. -/
theorem worker_round_attempts_every_item (frac : Nat → Nat → Nat → Nat)
    (getenv : String → String) (env : Env) (w : WorkerState) (found : List Auction)
    (hrun : env.cancelled w.step = false)
    (hscan : findExpiredAuctions (env.findFails (w.step + 1)) (env.decodeFails (w.step + 1))
        (env.clock (w.step + 1)) (env.others (w.step + 1) w.coll) = (found, none)) :
    (StartAuctionClosingWorker frac getenv env 1 w).1.log.map (fun e => e.call)
      = w.log.map (fun e => e.call) ++ [Call.scan]
        ++ found.map (fun a => Call.close a.Id)
        ++ [Call.sleep (checkInterval frac getenv)] ∧
    (StartAuctionClosingWorker frac getenv env 1 w).2 = false ∧
    (∃ store : Nat → Collection,
      store 0 = env.others (w.step + 1) w.coll ∧
      (∀ i a, found[i]? = some a →
        store (i + 1)
          = (closeAuction (env.updateFails (w.step + 2 + i)) a.Id
              (env.others (w.step + 2 + i) (store i))).2) ∧
      (StartAuctionClosingWorker frac getenv env 1 w).1.coll = store found.length ∧
      (StartAuctionClosingWorker frac getenv env 1 w).1.log
        = w.log
          ++ [{ step := w.step + 1, call := Call.scan,
                cancelled := env.cancelled (w.step + 1), err := none }]
          ++ found.mapIdx (fun i a =>
              { step := w.step + 2 + i
                call := Call.close a.Id
                cancelled := env.cancelled (w.step + 2 + i)
                err := (closeAuction (env.updateFails (w.step + 2 + i)) a.Id
                  (env.others (w.step + 2 + i) (store i))).1 })
          ++ [{ step := w.step + 2 + found.length
                call := Call.sleep (checkInterval frac getenv)
                cancelled := env.cancelled (w.step + 2 + found.length)
                err := none }]) ∧
    ((∀ k c, env.others k c = c) → WellFormed w.coll →
      ∀ i a, found[i]? = some a → env.updateFails (w.step + 2 + i) = false →
        ∃ d ∈ (StartAuctionClosingWorker frac getenv env 1 w).1.coll,
          d.Id = a.Id ∧ d.Status = Completed) := by
  have hone := StartAuctionClosingWorker_one frac getenv env w hrun
  obtain ⟨store, h0, hstep, hcoll, hlog⟩ :=
    workerRound_chain env (checkInterval frac getenv) w found hrun hscan
  have hfinal : (StartAuctionClosingWorker frac getenv env 1 w).1.coll = store found.length := by
    rw [hone]
    exact hcoll
  refine ⟨?_, ?_, ⟨store, h0, hstep, hfinal, ?_⟩, ?_⟩
  · rw [hone, workerRound_scanned env (checkInterval frac getenv) w found hrun hscan]
    simp only [sleep, List.map_append, closeExpired_calls, List.map_cons, List.map_nil]
  · rw [hone]
  · rw [hone]
    exact hlog
  · intro hothers hwf i a hia hok
    have hlt : i < found.length := by
      by_contra hge
      rw [List.getElem?_eq_none (by omega)] at hia
      cases hia
    have hmem : a ∈ found := List.getElem?_mem hia
    have hstored : ∃ d ∈ w.coll, d.Id = a.Id := by
      have := findExpiredAuctions_stored _ _ _ _ found hscan a hmem
      rw [hothers] at this
      exact this
    have hwf0 : WellFormed (store 0) := by rw [h0, hothers]; exact hwf
    have hid0 : ∃ d ∈ store 0, d.Id = a.Id := by rw [h0, hothers]; exact hstored
    -- up to the call for `a` its document is in the store
    have hbefore := chain_invariant env found (w.step + 2) store hothers hstep
      (fun c => ∃ d ∈ c, d.Id = a.Id)
      (fun f id c hc h => closeAuction_keeps_id f id a.Id c hc h)
      0 ⟨hwf0, hid0⟩ i (by omega)
    rw [Nat.zero_add] at hbefore
    -- that call completes it
    have hcall := hstep i a hia
    rw [hothers, hok] at hcall
    have hafter : WellFormed (store (i + 1)) ∧
        ∃ d ∈ store (i + 1), d.Id = a.Id ∧ d.Status = Completed := by
      rw [hcall]
      exact ⟨wellFormed_closeAuction _ _ _ hbefore.1,
        closeAuction_completes a.Id (store i) hbefore.1 hbefore.2⟩
    -- and the later calls keep it completed
    have hend := chain_invariant env found (w.step + 2) store hothers hstep
      (fun c => ∃ d ∈ c, d.Id = a.Id ∧ d.Status = Completed)
      (fun f id c hc h => closeAuction_keeps_completed f id a.Id c hc h)
      (i + 1) hafter (found.length - (i + 1)) (by omega)
    have hidx : i + 1 + (found.length - (i + 1)) = found.length := by omega
    rw [hidx] at hend
    rw [hfinal]
    exact hend.2

theorem worker_round_attempts_every_item_witness :
    (StartAuctionClosingWorker time.exactFrac sample.envEmpty sample.rough 1
        { coll := sample.fourExpired, step := 0, log := [] }).1.log.map (fun e => e.call)
      = [Call.scan, Call.close "a", Call.close "b", Call.close "c", Call.close "d",
         Call.sleep (1 * time.Minute)] ∧
    (StartAuctionClosingWorker time.exactFrac sample.envEmpty sample.rough 1
        { coll := sample.fourExpired, step := 0, log := [] }).2 = false ∧
    (StartAuctionClosingWorker time.exactFrac sample.envEmpty sample.rough 1
        { coll := sample.fourExpired, step := 0, log := [] }).1.log.map (fun e => e.err)
      = [none, none,
         some (NewNotFoundError "Auction not found for closing"),
         some (NewInternalServerError "Auction was not modified during closing"),
         some (NewInternalServerError "Error trying to close auction"),
         none] ∧
    (StartAuctionClosingWorker time.exactFrac sample.envEmpty sample.rough 1
        { coll := sample.fourExpired, step := 0, log := [] }).1.coll
      = [sample.doc "a" Completed 1600000000, sample.doc "c" Completed 1600000000,
         sample.doc "d" Active 1600000000] :=
  have h := worker_round_attempts_every_item time.exactFrac sample.envEmpty sample.rough
    { coll := sample.fourExpired, step := 0, log := [] }
    (findExpiredAuctions false false 1700000000100000000 sample.fourExpired).1
    rfl (Prod.ext rfl (by decide))
  ⟨h.1.trans (by decide), h.2.1, by decide, by decide⟩

/-- C9 as stated fails: the signal is set while the first of two expired
auctions is being closed; the worker still begins `closeAuction` for the second
auction and then begins the sleep, and returns only at the check of the next
round. Each entry is the step, the call begun and whether the signal was
already set. -/
theorem worker_continues_after_cancel :
    sample.cancelMidBatch.cancelAt = some 3 ∧
    (StartAuctionClosingWorker time.exactFrac sample.envEmpty sample.cancelMidBatch 2
        { coll := [sample.doc "a" Active 1700000000, sample.doc "b" Active 1700000000]
          step := 0
          log := [] }).1.log.map (fun e => (e.step, e.call, e.cancelled))
      = [(1, Call.scan, false), (2, Call.close "a", false), (3, Call.close "b", true),
         (4, Call.sleep (1 * time.Minute), true), (5, Call.done, true)] := by
  decide

/-- C9, amended: `StartAuctionClosingWorker` checks cancellation once per round
of its loop, before each new scan, and not before the sleep or between the
items of a batch. Every scan begins one step after a check that found the
signal unset. Whenever the check finds the signal set, the worker returns at
once: it begins no further scan, `closeAuction` item or sleep and leaves every
record as it was. Once the signal is set the worker does return, at the first
check after it. And no auction transition occurs after the item in flight when
the signal is set: every store call carries the context, so provided a call
begun under a cancelled context fails, each `closeAuction` begun with the
signal set leaves the collection as it found it, and with no other client
writing the collection after the round is the one held when the signal was
first seen set. -/
theorem worker_returns_at_check (frac : Nat → Nat → Nat → Nat)
    (getenv : String → String) (env : Env) :
    (∀ (rounds : Nat) (w : WorkerState), env.cancelled w.step = true →
      StartAuctionClosingWorker frac getenv env (rounds + 1) w
        = ({ coll := w.coll
             step := w.step + 1
             log := w.log ++ [{ step := w.step, call := Call.done, cancelled := true,
                                err := none }] },
           true)) ∧
    (∀ (rounds : Nat) (coll : Collection) (step : Nat),
      ∀ e ∈ (StartAuctionClosingWorker frac getenv env rounds
          { coll := coll, step := step, log := [] }).1.log,
        e.call = Call.scan → 0 < e.step ∧ env.cancelled (e.step - 1) = false) ∧
    (∀ (c : Nat) (w : WorkerState), env.cancelAt = some c →
      (StartAuctionClosingWorker frac getenv env (c + 1) w).2 = true) ∧
    (∀ (w : WorkerState) (found : List Auction),
      (∀ k, env.cancelled k = true → env.updateFails k = true) →
      env.cancelled w.step = false →
      findExpiredAuctions (env.findFails (w.step + 1)) (env.decodeFails (w.step + 1))
        (env.clock (w.step + 1)) (env.others (w.step + 1) w.coll) = (found, none) →
      ∃ store : Nat → Collection,
        store 0 = env.others (w.step + 1) w.coll ∧
        (∀ i a, found[i]? = some a →
          store (i + 1)
            = (closeAuction (env.updateFails (w.step + 2 + i)) a.Id
                (env.others (w.step + 2 + i) (store i))).2) ∧
        (StartAuctionClosingWorker frac getenv env 1 w).1.coll = store found.length ∧
        (∀ i a, found[i]? = some a → env.cancelled (w.step + 2 + i) = true →
          closeAuction (env.updateFails (w.step + 2 + i)) a.Id
              (env.others (w.step + 2 + i) (store i))
            = (some (NewInternalServerError "Error trying to close auction"),
               env.others (w.step + 2 + i) (store i)) ∧
          store (i + 1) = env.others (w.step + 2 + i) (store i)) ∧
        ((∀ k c, env.others k c = c) →
          ∀ i, i ≤ found.length → env.cancelled (w.step + 2 + i) = true →
            (StartAuctionClosingWorker frac getenv env 1 w).1.coll = store i)) := by
  refine ⟨?_, ?_, ?_, ?_⟩
  · intro rounds w h
    simp [StartAuctionClosingWorker, workerLoop, workerRound_cancelled env _ w h]
  · intro rounds coll step e he hscan
    exact workerLoop_scan env _ rounds _ (fun x hx => by cases hx) e he hscan
  · intro c w hc
    exact workerLoop_returns env _ c hc c w (by omega)
  · intro w found hctx hrun hscan
    have hone := StartAuctionClosingWorker_one frac getenv env w hrun
    obtain ⟨store, h0, hstep, hcoll, _⟩ :=
      workerRound_chain env (checkInterval frac getenv) w found hrun hscan
    have hfinal : (StartAuctionClosingWorker frac getenv env 1 w).1.coll
        = store found.length := by
      rw [hone]
      exact hcoll
    have hquiet : ∀ i a, found[i]? = some a → env.cancelled (w.step + 2 + i) = true →
        closeAuction (env.updateFails (w.step + 2 + i)) a.Id
            (env.others (w.step + 2 + i) (store i))
          = (some (NewInternalServerError "Error trying to close auction"),
             env.others (w.step + 2 + i) (store i)) ∧
        store (i + 1) = env.others (w.step + 2 + i) (store i) := by
      intro i a hia hcan
      have hfail := hctx _ hcan
      have hcall := hstep i a hia
      rw [hfail, closeAuction_failed] at hcall
      rw [hfail, closeAuction_failed]
      exact ⟨rfl, hcall⟩
    refine ⟨store, h0, hstep, hfinal, hquiet, ?_⟩
    intro hothers i hi hcan
    rw [hfinal]
    -- from call `i` on nothing changes
    have hconst : ∀ k, i + k ≤ found.length → store (i + k) = store i := by
      intro k
      induction k with
      | zero => intro _; rfl
      | succ k ih =>
        intro hk
        have hlt : i + k < found.length := by omega
        have hget : found[i + k]? = some found[i + k] := List.getElem?_eq_getElem hlt
        have hcan' : env.cancelled (w.step + 2 + (i + k)) = true :=
          cancelled_mono env (by omega) hcan
        have hs := (hquiet (i + k) _ hget hcan').2
        rw [hothers] at hs
        have : i + (k + 1) = i + k + 1 := by omega
        rw [this, hs]
        exact ih (by omega)
    have := hconst (found.length - i) (by omega)
    have hidx : i + (found.length - i) = found.length := by omega
    rw [hidx] at this
    exact this

theorem worker_returns_at_check_witness :
    StartAuctionClosingWorker time.exactFrac sample.envEmpty sample.cancelMidBatch 1
        { coll := [sample.doc "b" Active 1700000000], step := 5, log := [] }
      = ({ coll := [sample.doc "b" Active 1700000000]
           step := 6
           log := [{ step := 5, call := Call.done, cancelled := true, err := none }] },
         true) ∧
    (StartAuctionClosingWorker time.exactFrac sample.envEmpty sample.cancelMidBatch 4
        { coll := [sample.doc "b" Active 1700000000], step := 0, log := [] }).2 = true ∧
    (StartAuctionClosingWorker time.exactFrac sample.envEmpty sample.cancelMidBatch 1
        { coll := [sample.doc "a" Active 1700000000, sample.doc "b" Active 1700000000]
          step := 0
          log := [] }).1.coll
      = [sample.doc "a" Completed 1700000000, sample.doc "b" Active 1700000000] :=
  ⟨(worker_returns_at_check time.exactFrac sample.envEmpty sample.cancelMidBatch).1 0
      { coll := [sample.doc "b" Active 1700000000], step := 5, log := [] } rfl,
   (worker_returns_at_check time.exactFrac sample.envEmpty sample.cancelMidBatch).2.2.1 3
      { coll := [sample.doc "b" Active 1700000000], step := 0, log := [] } rfl,
   by
    obtain ⟨store, h0, hstep, _, _, hrest⟩ :=
      (worker_returns_at_check time.exactFrac sample.envEmpty sample.cancelMidBatch).2.2.2
        { coll := [sample.doc "a" Active 1700000000, sample.doc "b" Active 1700000000]
          step := 0
          log := [] }
        (findExpiredAuctions false false 1700000000100000000
          [sample.doc "a" Active 1700000000, sample.doc "b" Active 1700000000]).1
        (fun _ h => h) rfl (Prod.ext rfl (by decide))
    have h1 := hstep 0 (toEntity (sample.doc "a" Active 1700000000)) rfl
    rw [hrest (fun _ _ => rfl) 1 (by decide) rfl, h1, h0]
    decide⟩

end AuctionRepository

end auction

/-! ## The auction entity: end time and validation -/

namespace auction_entity

open internal_error

/-- The end time is the clock reading of `calculateEndTime` plus the resolved
duration. -/
theorem calculateEndTime_eq (frac : Nat → Nat → Nat → Nat) (getenv : String → String)
    (now : Int) : calculateEndTime frac getenv now = now + resolvedDuration frac getenv := by
  rfl

/-- An auction that `CreateAuction` returns is the one it built. -/
theorem CreateAuction_returned (frac : Nat → Nat → Nat → Nat) (getenv : String → String)
    (uuid : String) (now1 now2 : Int) (productName category description : String)
    (condition : ProductCondition) (a : Auction)
    (h : (CreateAuction frac getenv uuid now1 now2 productName category description
      condition).1 = some a) :
    a = { Id := uuid
          ProductName := productName
          Category := category
          Description := description
          Condition := condition
          Status := Active
          Timestamp := now1
          EndTime := calculateEndTime frac getenv now2 } := by
  unfold CreateAuction at h
  dsimp only at h
  split at h
  · cases h
  · simp only [Option.some.injEq] at h
    exact h.symm

end auction_entity

namespace auction_entity

open internal_error

/-- C11 as stated fails: the clock advances by 5 ns between the reading stored
as `Timestamp` and the reading taken inside `calculateEndTime`; with a
resolved duration of 5 minutes the `EndTime` of the auction returned is
`Timestamp` plus 5 minutes plus those 5 ns. -/
theorem CreateAuction_endTime_drifts :
    CreateAuction time.exactFrac (sample.envDuration "5m") "id-1" 1700000000000000000
        1700000000000000005 "Produto Teste" "Eletrônicos" "Descrição de teste" New
      = (some { Id := "id-1"
                ProductName := "Produto Teste"
                Category := "Eletrônicos"
                Description := "Descrição de teste"
                Condition := New
                Status := Active
                Timestamp := 1700000000000000000
                EndTime := 1700000300000000005 }, none) ∧
    resolvedDuration time.exactFrac (sample.envDuration "5m") = 5 * time.Minute ∧
    (1700000300000000005 : Int) ≠ 1700000000000000000 + 5 * time.Minute := by
  refine ⟨?_, by decide, by decide⟩
  simp [CreateAuction, Auction.Validate, len, New, Used, Refurbished, Active]
  decide

/-- C11, amended: for every auction returned by `CreateAuction`, `Timestamp` is
the first clock reading of the creation and `EndTime` is the later reading,
taken inside `calculateEndTime`, plus the resolved duration. So `EndTime` is
`Timestamp` plus the duration plus the time that passed between the two
readings: it is `Timestamp` plus the duration exactly when the clock did not
advance in between, and not less when the clock does not run backwards. -/
theorem CreateAuction_endTime_exact (frac : Nat → Nat → Nat → Nat)
    (getenv : String → String) (uuid : String) (now1 now2 : Int)
    (productName category description : String) (condition : ProductCondition)
    (a : Auction)
    (h : CreateAuction frac getenv uuid now1 now2 productName category description
      condition = (some a, none)) :
    a.Timestamp = now1 ∧
    a.EndTime = now2 + resolvedDuration frac getenv ∧
    a.EndTime = a.Timestamp + resolvedDuration frac getenv + (now2 - now1) ∧
    (a.EndTime = a.Timestamp + resolvedDuration frac getenv ↔ now1 = now2) ∧
    (now1 ≤ now2 → a.Timestamp + resolvedDuration frac getenv ≤ a.EndTime) := by
  have ha := CreateAuction_returned frac getenv uuid now1 now2 productName category
    description condition a (by rw [h])
  have h1 : a.Timestamp = now1 := by rw [ha]
  have h2 : a.EndTime = now2 + resolvedDuration frac getenv := by
    rw [ha]; exact calculateEndTime_eq frac getenv now2
  refine ⟨h1, h2, ?_, ?_, ?_⟩
  · rw [h1, h2]; ring
  · rw [h1, h2]
    constructor
    · intro h3; linarith
    · intro h3; rw [h3]
  · intro h3
    rw [h1, h2]; linarith

theorem CreateAuction_endTime_exact_witness :
    (1700000300000000005 : Int)
      = 1700000000000000005 + resolvedDuration time.exactFrac (sample.envDuration "5m") :=
  (CreateAuction_endTime_exact time.exactFrac (sample.envDuration "5m") "id-1"
    1700000000000000000 1700000000000000005 "Produto Teste" "Eletrônicos"
    "Descrição de teste" New
    { Id := "id-1"
      ProductName := "Produto Teste"
      Category := "Eletrônicos"
      Description := "Descrição de teste"
      Condition := New
      Status := Active
      Timestamp := 1700000000000000000
      EndTime := 1700000300000000005 }
    (by
      simp [CreateAuction, Auction.Validate, len, New, Used, Refurbished, Active]
      decide)).2.1

end auction_entity

namespace auction

open internal_error auction_entity

/-- The update by `_id` matches one document as soon as a document with that
`_id` is stored. -/
theorem setStatus_matched (id : String) (status : AuctionStatus) (c : Collection)
    (h : ∃ d ∈ c, d.Id = id) : (setStatus id status c).1.MatchedCount = 1 := by
  induction c with
  | nil =>
    obtain ⟨d, hd, _⟩ := h
    cases hd
  | cons x xs ih =>
    by_cases hx : x.Id = id
    · by_cases hs : x.Status = status <;> simp [setStatus, hx, hs]
    · have h' : ∃ d ∈ xs, d.Id = id := by
        obtain ⟨d, hd, hid⟩ := h
        rcases List.mem_cons.1 hd with rfl | hd'
        · exact absurd hid hx
        · exact ⟨d, hd', hid⟩
      simp [setStatus, hx, ih h']

namespace AuctionRepository

/-- C12: when the update call of the store does not fail, `closeAuction`
returns a not-found error exactly when the store holds no record with that id,
and in that case the error is `Auction not found for closing` and every stored
record is left as it was. -/
theorem closeAuction_notFound_iff (auctionId : String) (c : Collection) :
    ((∃ e, (closeAuction false auctionId c).1 = some e ∧ e.Err = Kind.NotFound)
      ↔ ∀ d ∈ c, d.Id ≠ auctionId) ∧
    ((∀ d ∈ c, d.Id ≠ auctionId) →
      closeAuction false auctionId c
        = (some (NewNotFoundError "Auction not found for closing"), c)) := by
  have habsent : (∀ d ∈ c, d.Id ≠ auctionId) →
      closeAuction false auctionId c
        = (some (NewNotFoundError "Auction not found for closing"), c) := by
    intro h
    simp [closeAuction, UpdateOne, setStatus_absent auctionId Completed c h]
  refine ⟨⟨?_, ?_⟩, habsent⟩
  · rintro ⟨e, he, hkind⟩
    by_contra hne
    have hex : ∃ d ∈ c, d.Id = auctionId := by
      by_contra hno
      apply hne
      intro d hd hid
      exact hno ⟨d, hd, hid⟩
    have hm := setStatus_matched auctionId Completed c hex
    simp only [closeAuction, UpdateOne, Bool.false_eq_true, if_false, hm,
      one_ne_zero] at he
    split at he
    · simp only [Option.some.injEq] at he
      rw [← he] at hkind
      cases hkind
    · cases he
  · intro h
    rw [habsent h]
    exact ⟨_, rfl, rfl⟩

theorem closeAuction_notFound_iff_witness :
    closeAuction false "a9"
        [sample.doc "a0" Completed 1700000000, sample.doc "a1" Active 1700000300]
      = (some (NewNotFoundError "Auction not found for closing"),
         [sample.doc "a0" Completed 1700000000, sample.doc "a1" Active 1700000300]) :=
  (closeAuction_notFound_iff "a9"
    [sample.doc "a0" Completed 1700000000, sample.doc "a1" Active 1700000300]).2
    (by decide)

end AuctionRepository

end auction

namespace auction_entity

open internal_error

/-- C13: `Validate` returns nil exactly when the byte length of the product name
exceeds 1, that of the category exceeds 2, that of the description exceeds 10,
and the condition is 1 (New), 2 (Used) or 3 (Refurbished); otherwise it returns
the bad-request error of the first failing check, in the order product name,
category, description, condition. The zero value of `ProductCondition` is
rejected. -/
theorem Validate_spec (au : Auction) :
    (au.Validate = none ↔
      1 < au.ProductName.utf8ByteSize ∧ 2 < au.Category.utf8ByteSize ∧
      10 < au.Description.utf8ByteSize ∧
      (au.Condition = 1 ∨ au.Condition = 2 ∨ au.Condition = 3)) ∧
    (au.ProductName.utf8ByteSize ≤ 1 →
      au.Validate
        = some (NewBadRequestError "product name must be longer than 1 character")) ∧
    (1 < au.ProductName.utf8ByteSize → au.Category.utf8ByteSize ≤ 2 →
      au.Validate
        = some (NewBadRequestError "category must be longer than 2 characters")) ∧
    (1 < au.ProductName.utf8ByteSize → 2 < au.Category.utf8ByteSize →
      au.Description.utf8ByteSize ≤ 10 →
      au.Validate
        = some (NewBadRequestError "description must be longer than 10 characters")) ∧
    (1 < au.ProductName.utf8ByteSize → 2 < au.Category.utf8ByteSize →
      10 < au.Description.utf8ByteSize →
      ¬ (au.Condition = 1 ∨ au.Condition = 2 ∨ au.Condition = 3) →
      au.Validate = some (NewBadRequestError "invalid product condition")) ∧
    (au.Condition = 0 → ∃ e, au.Validate = some e ∧ e.Err = Kind.BadRequest) := by
  have hcond : (au.Condition ≠ New ∧ au.Condition ≠ Refurbished ∧ au.Condition ≠ Used)
      ↔ ¬ (au.Condition = 1 ∨ au.Condition = 2 ∨ au.Condition = 3) := by
    simp only [New, Refurbished, Used]
    constructor
    · rintro ⟨h1, h3, h2⟩ (h | h | h)
      · exact h1 h
      · exact h2 h
      · exact h3 h
    · intro h
      exact ⟨fun h1 => h (Or.inl h1), fun h3 => h (Or.inr (Or.inr h3)),
        fun h2 => h (Or.inr (Or.inl h2))⟩
  by_cases hp : au.ProductName.utf8ByteSize ≤ 1
  · have hv : au.Validate
        = some (NewBadRequestError "product name must be longer than 1 character") := by
      simp [Auction.Validate, len, hp]
    refine ⟨?_, fun _ => hv, ?_, ?_, ?_, fun _ => ⟨_, hv, rfl⟩⟩
    · rw [hv]
      constructor
      · intro h; cases h
      · intro h; omega
    · intro h; omega
    · intro h; omega
    · intro h; omega
  · by_cases hc : au.Category.utf8ByteSize ≤ 2
    · have hv : au.Validate
          = some (NewBadRequestError "category must be longer than 2 characters") := by
        simp [Auction.Validate, len, hp, hc]
      refine ⟨?_, fun h => absurd h hp, fun _ _ => hv, ?_, ?_, fun _ => ⟨_, hv, rfl⟩⟩
      · rw [hv]
        constructor
        · intro h; cases h
        · intro h; omega
      · intro _ h; omega
      · intro _ h; omega
    · by_cases hd : au.Description.utf8ByteSize ≤ 10
      · have hv : au.Validate
            = some (NewBadRequestError "description must be longer than 10 characters") := by
          simp [Auction.Validate, len, hp, hc, hd]
        refine ⟨?_, fun h => absurd h hp, fun _ h => absurd h hc, fun _ _ _ => hv, ?_,
          fun _ => ⟨_, hv, rfl⟩⟩
        · rw [hv]
          constructor
          · intro h; cases h
          · intro h; omega
        · intro _ _ h; omega
      · by_cases hk : au.Condition ≠ New ∧ au.Condition ≠ Refurbished ∧ au.Condition ≠ Used
        · have hv : au.Validate = some (NewBadRequestError "invalid product condition") := by
            simp only [Auction.Validate, len, hp, hc, hd, if_false]
            rw [if_pos hk]
          refine ⟨?_, fun h => absurd h hp, fun _ h => absurd h hc,
            fun _ _ h => absurd h hd, fun _ _ _ _ => hv, fun _ => ⟨_, hv, rfl⟩⟩
          rw [hv]
          constructor
          · intro h; cases h
          · intro h; exact absurd h.2.2.2 (hcond.1 hk)
        · have hv : au.Validate = none := by
            simp only [Auction.Validate, len, hp, hc, hd, if_false]
            rw [if_neg hk]
          have hk' : au.Condition = 1 ∨ au.Condition = 2 ∨ au.Condition = 3 := by
            by_contra hno
            exact hk (hcond.2 hno)
          refine ⟨?_, fun h => absurd h hp, fun _ h => absurd h hc,
            fun _ _ h => absurd h hd, fun _ _ _ h => absurd hk' h, ?_⟩
          · rw [hv]
            exact ⟨fun _ => ⟨by omega, by omega, by omega, hk'⟩, fun _ => rfl⟩
          · intro h0
            rcases hk' with h | h | h <;> rw [h0] at h <;> cases h

theorem Validate_spec_witness :
    Auction.Validate
        { Id := "id-1"
          ProductName := "Produto Teste"
          Category := "Eletrônicos"
          Description := "Descrição de teste"
          Condition := 0
          Status := Active
          Timestamp := 1700000000000000000
          EndTime := 1700000300000000000 }
      = some (NewBadRequestError "invalid product condition") :=
  (Validate_spec
    { Id := "id-1"
      ProductName := "Produto Teste"
      Category := "Eletrônicos"
      Description := "Descrição de teste"
      Condition := 0
      Status := Active
      Timestamp := 1700000000000000000
      EndTime := 1700000300000000000 }).2.2.2.2.1
    (by decide) (by decide) (by decide) (by decide)

end auction_entity
